import Mathlib

/-!
Shallow embedding of the ksonnet-lib generator core
(`ksonnet-gen/ksonnet/emit.go`, the indent writer and the emit visitor),
together with theorems checking the natural-language specification
against this embedding.

Go maps are modelled as lists whose element order stands for the map
iteration order; pointer mutation is modelled by explicit state passing
on the `root` tree; `log.Panicf` and nil dereferences are modelled as
`Except.error`; recursion through object references is modelled with an
explicit fuel parameter.
-/

namespace Ksonnet

/-- Modelled from the spec: the external `kubespec` package (not under
`src/`) parses a fully-qualified definition path into an optional group,
an optional version and a kind, and can unparse it back.  A definition
name is modelled as a record carrying the raw path text together with
its parse result; `Parse` projects the components and `Unparse` returns
the raw text. -/
structure DefName where
  raw : String
  group : Option String
  version : Option String
  kind : String
deriving DecidableEq, Inhabited

/-- Modelled from the spec: an object reference (`kubespec.ObjectRef`,
not under `src/`) names a target definition; whether a reference is
eligible for recursive mixin expansion is decided by the external
`isMixinRef` predicate, modelled here as a boolean attribute of the
reference. -/
structure ObjectRef where
  name : DefName
  mixinEligible : Bool
deriving DecidableEq, Inhabited

/-- The `isMixinRef` from the source: a nil reference is never a mixin
reference, otherwise the external eligibility predicate decides. -/
def isMixinRef : Option ObjectRef → Bool
  | none => false
  | some r => r.mixinEligible

/-- The two property kinds of `emit.go` (`method` and `typeAlias`). -/
inductive PropertyKind where
  | method
  | typeAlias
deriving DecidableEq, Inhabited

/-- Splitting a character list at every occurrence of a separator
character; an executable model of `strings.Split` for a one-character
separator (as `newComments` uses it). -/
def splitOnChar (c : Char) : List Char → List (List Char)
  | [] => [[]]
  | x :: xs =>
    match splitOnChar c xs with
    | [] => if x = c then [[], []] else [[x]]
    | h :: t => if x = c then [] :: h :: t else (x :: h) :: t

/-- The `newComments` from `emit.go`: split the description on newlines. -/
def newComments (text : String) : List String :=
  (splitOnChar (Char.ofNat 10) text.data).map (fun l => ⟨l⟩)

/-- The `property` struct of `emit.go`.  The Go back-pointer `parent` is
dropped (the root is passed explicitly where needed); `itemTypes` keeps
only its `Ref` field, the only one the emitter reads. -/
structure Property where
  kind : PropertyKind
  ref : Option ObjectRef
  schemaType : Option String
  items : Option ObjectRef
  name : String
  path : DefName
  comments : List String
  parentMixinName : String
deriving DecidableEq, Inhabited

/-- A schema property record (`kubespec.Property`, interface modelled
from the spec): description, optional declared type, optional `$ref`,
optional array item `$ref`. -/
structure SchemaProperty where
  description : String
  type : Option String
  ref : Option ObjectRef
  items : Option ObjectRef
deriving DecidableEq, Inhabited

/-- A schema definition record (`kubespec.SchemaDefinition`, interface
modelled from the spec): description, named properties (list order
models the Go map iteration order), and the group names of its
`TopLevelSpecs` resource markers. -/
structure SchemaDefinition where
  description : String
  properties : List (String × SchemaProperty)
  topLevelSpecs : List String
deriving DecidableEq, Inhabited

/-- The `apiObject` struct of `emit.go` (parent pointer dropped). -/
structure APIObject where
  name : String
  parsedName : DefName
  properties : List Property
  comments : List String
  isTopLevel : Bool
deriving DecidableEq, Inhabited

/-- The `versionedAPI` struct of `emit.go` (parent pointer dropped). -/
structure VersionedAPI where
  version : String
  apiObjects : List APIObject
deriving DecidableEq, Inhabited

/-- The `group` struct of `emit.go` (parent pointer dropped). -/
structure Group where
  name : String
  qualifiedName : String
  versionedAPIs : List VersionedAPI
deriving DecidableEq, Inhabited

/-- The `root` struct of `emit.go`: visible and hidden group sets, the
schema version and the two optional provenance stamps. -/
structure Root where
  specVersion : String
  ksonnetLibSHA : Option String
  k8sSHA : Option String
  groups : List Group
  hiddenGroups : List Group
deriving DecidableEq, Inhabited

/-- A custom constructor parameter
(`kubeversion.CustomConstructorParam`, interface modelled from the
spec): identifier, optional default literal, optional explicit relative
setter path. -/
structure CtorParam where
  id : String
  defaultValue : Option String
  relativePath : Option String
deriving DecidableEq, Inhabited

/-- A custom constructor spec (`kubeversion.CustomConstructorSpec`,
interface modelled from the spec). -/
structure CtorSpec where
  id : String
  params : List CtorParam
deriving DecidableEq, Inhabited

/-- The external collaborators of the generator, specified at their
interface only (spec section 6): the naming policy (`jsonnet` package),
the customization tables (`kubeversion` package) and the special
property predicate (`isSpecialProperty`, not under `src/`).  All are
pure functions; theorems quantify over them. -/
structure Ctx where
  rewriteAsIdentifier : String → String → String
  rewriteAsFuncParam : String → String → String
  rewriteAsFieldKey : String → String
  toSetterID : String → String
  toMixinID : String → String
  blacklisted : String → DefName → String → Bool
  ctorSpecs : String → String → Option (List CtorSpec)
  special : String → Bool

/-- Lexicographic strict comparison of character lists, mirroring the
bytewise `<` of Go on UTF-8 strings (UTF-8 byte order and code-point
order agree). -/
def charListLt : List Char → List Char → Bool
  | [], [] => false
  | [], _ :: _ => true
  | _ :: _, [] => false
  | a :: as, b :: bs =>
    if a < b then true else if b < a then false else charListLt as bs

/-- Go string `<`, as an executable comparison. -/
def strLt (a b : String) : Bool :=
  charListLt a.data b.data

/-- Go string `<=` (the negation of `>`); `sort.Slice` with a strict
`less` on pairwise-distinct keys produces the list sorted by this. -/
def strLe (a b : String) : Bool :=
  ! strLt b a

theorem charListLt_asymm :
    ∀ as bs, charListLt as bs = true → charListLt bs as = false := by
  intro as
  induction as with
  | nil => intro bs h; cases bs <;> simp_all [charListLt]
  | cons a as ih =>
    intro bs h
    cases bs with
    | nil => simp [charListLt] at h
    | cons b bs =>
      rw [charListLt] at h ⊢
      by_cases hab : a < b
      · have hba : ¬ b < a := fun hc => absurd hab (not_lt_of_gt hc)
        rw [if_neg hba, if_pos hab]
      · rw [if_neg hab] at h
        by_cases hba : b < a
        · rw [if_pos hba] at h
          exact Bool.noConfusion h
        · rw [if_neg hba] at h
          rw [if_neg hba, if_neg hab]
          exact ih bs h

theorem charListLt_trans :
    ∀ as bs cs, charListLt as bs = true → charListLt bs cs = true →
      charListLt as cs = true := by
  intro as
  induction as with
  | nil =>
    intro bs cs h1 h2
    cases bs with
    | nil => simp [charListLt] at h1
    | cons b bs => cases cs with
      | nil => simp [charListLt] at h2
      | cons c cs => simp [charListLt]
  | cons a as ih =>
    intro bs cs h1 h2
    cases bs with
    | nil => simp [charListLt] at h1
    | cons b bs =>
      cases cs with
      | nil => simp [charListLt] at h2
      | cons c cs =>
        rw [charListLt] at h1 h2 ⊢
        by_cases hab : a < b
        · by_cases hbc : b < c
          · rw [if_pos (lt_trans hab hbc)]
          · rw [if_neg hbc] at h2
            by_cases hcb : c < b
            · rw [if_pos hcb] at h2
              exact Bool.noConfusion h2
            · have hbc' : b = c := le_antisymm (not_lt.mp hcb) (not_lt.mp hbc)
              subst hbc'
              rw [if_pos hab]
        · rw [if_neg hab] at h1
          by_cases hba : b < a
          · rw [if_pos hba] at h1
            exact Bool.noConfusion h1
          · rw [if_neg hba] at h1
            have hab' : a = b := le_antisymm (not_lt.mp hba) (not_lt.mp hab)
            subst hab'
            by_cases hac : a < c
            · rw [if_pos hac]
            · rw [if_neg hac] at h2 ⊢
              by_cases hca : c < a
              · rw [if_pos hca] at h2
                exact Bool.noConfusion h2
              · rw [if_neg hca] at h2 ⊢
                exact ih bs cs h1 h2

theorem strLe_total (a b : String) : strLe a b = true ∨ strLe b a = true := by
  rcases Bool.eq_false_or_eq_true (charListLt b.data a.data) with h | h
  · right
    have := charListLt_asymm _ _ h
    simp [strLe, strLt, this]
  · left
    simp [strLe, strLt, h]

theorem charListLt_conn :
    ∀ as bs, charListLt as bs = false → charListLt bs as = false → as = bs := by
  intro as
  induction as with
  | nil => intro bs h1 _; cases bs <;> simp_all [charListLt]
  | cons a as ih =>
    intro bs h1 h2
    cases bs with
    | nil => simp [charListLt] at h2
    | cons b bs =>
      simp only [charListLt] at h1 h2
      by_cases hab : a < b
      · simp [hab] at h1
      · by_cases hba : b < a
        · simp [hba, hab] at h2
        · have hab' : a = b := le_antisymm (not_lt.mp hba) (not_lt.mp hab)
          subst hab'
          simp only [lt_irrefl, if_false] at h1 h2
          rw [ih bs h1 h2]

theorem strLe_trans {a b c : String} (h1 : strLe a b = true) (h2 : strLe b c = true) :
    strLe a c = true := by
  simp only [strLe, strLt, Bool.not_eq_true'] at h1 h2 ⊢
  by_contra hca
  simp only [Bool.not_eq_false] at hca
  rcases Bool.eq_false_or_eq_true (charListLt b.data c.data) with hbc | hbc
  · have := charListLt_trans b.data c.data a.data hbc hca
    simp [this] at h1
  · have hbc' : b.data = c.data := charListLt_conn _ _ hbc h2
    rw [hbc'] at h1
    simp [hca] at h1

/-- The `strings.TrimSuffix`: drop the suffix when present, else return the
string unchanged (implemented on the character lists so that it is
kernel-executable). -/
def trimSuffix (s suffix : String) : String :=
  if suffix.data.isSuffixOf s.data then
    ⟨s.data.take (s.data.length - suffix.data.length)⟩
  else s

/-- The effective name a property contributes to the blacklist lookup in
`propertySet.sortAndFilterBlacklisted`: a type alias is looked up under
its name with the `Type` suffix stripped. -/
def blacklistName (pm : Property) : String :=
  if pm.kind = .typeAlias then trimSuffix pm.name "Type" else pm.name

/-- The filter step of `propertySet.sortAndFilterBlacklisted`: drop
blacklisted properties, and silently drop any property whose `$ref`
path does not parse to a version. -/
def keepProperty (C : Ctx) (kv : String) (pm : Property) : Bool :=
  if C.blacklisted kv pm.path (blacklistName pm) then false
  else
    match pm.ref with
    | some r => r.name.version.isSome
    | none => true

/-- Sorting by a string key, as done by each `toSortedSlice`
(`sort.Slice` with a strict `less` comparing the key; on the
pairwise-distinct keys of a Go map this is the unique sorted order). -/
def sortByKey (key : α → String) (l : List α) : List α :=
  List.insertionSort (fun a b => strLe (key a) (key b) = true) l

instance sortKeyTotal (key : α → String) :
    IsTotal α (fun a b => strLe (key a) (key b) = true) :=
  ⟨fun a b => strLe_total (key a) (key b)⟩

instance sortKeyTrans (key : α → String) :
    IsTrans α (fun a b => strLe (key a) (key b) = true) :=
  ⟨fun _ _ _ h1 h2 => strLe_trans h1 h2⟩

theorem sortByKey_sorted (key : α → String) (l : List α) :
    (sortByKey key l).Sorted (fun a b => strLe (key a) (key b) = true) :=
  List.sorted_insertionSort _ l

theorem mem_sortByKey (key : α → String) {l : List α} {x : α} :
    x ∈ sortByKey key l ↔ x ∈ l :=
  List.mem_insertionSort _

/-- The `propertySet.sortAndFilterBlacklisted` from `emit.go`: filter, then
sort ascending by the full property name (the Go code compares
`properties[i].name < properties[j].name`). -/
def sortAndFilterBlacklisted (C : Ctx) (kv : String) (ps : List Property) : List Property :=
  sortByKey Property.name (ps.filter (keepProperty C kv))

/-- The selection the specification describes for claim C2: remove
blacklisted properties, then sort by the name obtained after stripping
the alias suffix `Type` (read charitably: stripped for alias
properties, so that a property and its alias share a sort key). -/
def claimedSelection (C : Ctx) (kv : String) (ps : List Property) : List Property :=
  sortByKey blacklistName
    (ps.filter (fun pm => ! C.blacklisted kv pm.path (blacklistName pm)))

/-- The `newPropertyMethod` from `emit.go`. -/
def newPropertyMethod (name : String) (path : DefName) (sp : SchemaProperty) : Property :=
  { kind := .method, ref := sp.ref, schemaType := sp.type, items := sp.items,
    name := name, path := path, comments := newComments sp.description,
    parentMixinName := "" }

/-- The `newPropertyTypeAlias` from `emit.go`. -/
def newPropertyTypeAlias (name : String) (path : DefName) (sp : SchemaProperty) : Property :=
  { kind := .typeAlias, ref := sp.ref, schemaType := sp.type, items := sp.items,
    name := name, path := path, comments := newComments sp.description,
    parentMixinName := "" }

/-- Lookup in a property set (a Go map keyed by property name). -/
def lookupProp (ps : List Property) (n : String) : Option Property :=
  ps.find? (fun q => q.name == n)

/-- Map assignment `apiObject.properties[name] = pm`: replace any entry
with the same name, else add. -/
def insertProp (ps : List Property) (p : Property) : List Property :=
  ps.filter (fun q => q.name != p.name) ++ [p]

/-- The property-construction loop of `root.addDefinition`: create a
method property per schema field, and synthesize a `Type` alias for
mixin-eligible references and arrays of references; creating an alias
over an existing non-alias property is fatal. -/
def buildProps (path : DefName) : List Property → List (String × SchemaProperty) →
    Except String (List Property)
  | acc, [] => .ok acc
  | acc, (pname, sp) :: rest =>
    let pm := newPropertyMethod pname path sp
    let acc1 := insertProp acc pm
    if isMixinRef sp.ref || (sp.type == some "array" && sp.items.isSome) then
      let taName := pname ++ "Type"
      match lookupProp acc1 taName with
      | some ta =>
        if ta.kind ≠ .typeAlias then
          .error ("Cannot create type alias " ++ taName ++
            " because a property with that name already exists")
        else
          buildProps path (insertProp acc1 (newPropertyTypeAlias taName path sp)) rest
      | none => buildProps path (insertProp acc1 (newPropertyTypeAlias taName path sp)) rest
    else
      buildProps path acc1 rest

/-- The `newAPIObject` from `emit.go`. -/
def newAPIObject (parsedName : DefName) (d : SchemaDefinition) : APIObject :=
  { name := parsedName.kind, parsedName := parsedName, properties := [],
    comments := newComments d.description, isTopLevel := !d.topLevelSpecs.isEmpty }

/-- The `newGroup` from `emit.go` (parent pointer dropped). -/
def newGroup (name qualifiedName : String) : Group :=
  ⟨name, qualifiedName, []⟩

/-- The `newVersionedAPI` from `emit.go` (parent pointer dropped). -/
def newVersionedAPI (version : String) : VersionedAPI :=
  ⟨version, []⟩

/-- Lookup in a group set (a Go map keyed by group name). -/
def findGroup (gs : List Group) (n : String) : Option Group :=
  gs.find? (fun g => g.name == n)

/-- Map assignment into a group set. -/
def setGroup (gs : List Group) (g : Group) : List Group :=
  if gs.any (fun x => x.name == g.name) then
    gs.map (fun x => if x.name == g.name then g else x)
  else gs ++ [g]

/-- Lookup in a versioned-API set (a Go map keyed by version). -/
def findVA (vas : List VersionedAPI) (v : String) : Option VersionedAPI :=
  vas.find? (fun x => x.version == v)

/-- Map assignment into a versioned-API set. -/
def setVA (vas : List VersionedAPI) (va : VersionedAPI) : List VersionedAPI :=
  if vas.any (fun x => x.version == va.version) then
    vas.map (fun x => if x.version == va.version then va else x)
  else vas ++ [va]

/-- Lookup in an API-object set (a Go map keyed by object kind). -/
def findAOIn (aos : List APIObject) (k : String) : Option APIObject :=
  aos.find? (fun x => x.name == k)

/-- The place of an API object inside the root tree, used to model
in-place pointer mutation of the shared object. -/
structure Loc where
  visible : Bool
  gname : String
  version : String
  kind : String
deriving DecidableEq, Inhabited

/-- The qualified-name computation of `root.createAPIObject`: the group
of the first top-level spec when present and nonempty, else the plain
group name. -/
def qualifiedNameOf (d : SchemaDefinition) (groupName : String) : String :=
  match d.topLevelSpecs with
  | g :: _ => if g ≠ "" then g else groupName
  | [] => groupName

/-- The `root.createAPIObject` from `emit.go`: route the definition into the
visible or hidden tree by the presence of top-level specs, create or
reuse the group (the qualified name is fixed by whichever definition
creates the group first) and the versioned API, and abort on a
duplicate kind.  The updated root and the location of the new object
are returned. -/
def createAPIObject (r : Root) (parsedName : DefName) (d : SchemaDefinition) :
    Except String (Root × Loc) :=
  match parsedName.version with
  | none => .error ("Cannot make API object from name with nil version in path: " ++
      parsedName.raw)
  | some version =>
    let groupName := parsedName.group.getD "core"
    let qualifiedName := qualifiedNameOf d groupName
    let visible := !d.topLevelSpecs.isEmpty
    let gs := if visible then r.groups else r.hiddenGroups
    let group := (findGroup gs groupName).getD (newGroup groupName qualifiedName)
    let va := (findVA group.versionedAPIs version).getD (newVersionedAPI version)
    if (findAOIn va.apiObjects parsedName.kind).isSome then
      .error ("Duplicate object kinds with name " ++ parsedName.raw)
    else
      let va1 := { va with apiObjects := va.apiObjects ++ [newAPIObject parsedName d] }
      let group1 := { group with versionedAPIs := setVA group.versionedAPIs va1 }
      let gs1 := setGroup gs group1
      let r1 := if visible then { r with groups := gs1 } else { r with hiddenGroups := gs1 }
      .ok (r1, ⟨visible, groupName, version, parsedName.kind⟩)

/-- Apply `f` to the API object at the given location (the functional
counterpart of mutating a `*apiObject`). -/
def updateAOInGroups (gs : List Group) (gname version kind : String)
    (f : APIObject → APIObject) : List Group :=
  gs.map fun g =>
    if g.name == gname then
      { g with versionedAPIs := g.versionedAPIs.map fun va =>
          if va.version == version then
            { va with apiObjects := va.apiObjects.map fun ao =>
                if ao.name == kind then f ao else ao }
          else va }
    else g

/-- Apply `f` to the API object at `loc` in the root tree. -/
def updateAOAt (r : Root) (loc : Loc) (f : APIObject → APIObject) : Root :=
  if loc.visible then
    { r with groups := updateAOInGroups r.groups loc.gname loc.version loc.kind f }
  else
    { r with hiddenGroups := updateAOInGroups r.hiddenGroups loc.gname loc.version loc.kind f }

/-- The `root.addDefinition` from `emit.go`: skip paths without a version,
else create the API object and fill in its properties. -/
def addDefinition (r : Root) (path : DefName) (d : SchemaDefinition) : Except String Root :=
  if path.version.isNone then .ok r
  else
    match createAPIObject r path d with
    | .error e => .error e
    | .ok (r1, loc) =>
      match buildProps path [] d.properties with
      | .error e => .error e
      | .ok props => .ok (updateAOAt r1 loc (fun ao => { ao with properties := props }))

/-- The definition loop of `newRoot`; the list order models the Go map
iteration order over `spec.Definitions`. -/
def addDefinitions : Root → List (DefName × SchemaDefinition) → Except String Root
  | r, [] => .ok r
  | r, (p, d) :: rest =>
    match addDefinition r p d with
    | .error e => .error e
    | .ok r1 => addDefinitions r1 rest

/-- The empty root built by `newRoot` before any definition is added. -/
def emptyRoot (ver : String) (ksha k8ssha : Option String) : Root :=
  { specVersion := ver, ksonnetLibSHA := ksha, k8sSHA := k8ssha,
    groups := [], hiddenGroups := [] }

/-- The `newRoot` from `emit.go`. -/
def newRoot (ver : String) (ksha k8ssha : Option String)
    (defs : List (DefName × SchemaDefinition)) : Except String Root :=
  addDefinitions (emptyRoot ver ksha k8ssha) defs

/-- The plain group-set lookup chain (group, then version, then kind),
returning the versioned API and the object when the whole chain
exists. -/
def lookupChain (gs : List Group) (p : DefName) : Option (VersionedAPI × APIObject) :=
  match p.version with
  | none => none
  | some v =>
    match findGroup gs (p.group.getD "core") with
    | none => none
    | some g =>
      match findVA g.versionedAPIs v with
      | none => none
      | some va =>
        match findAOIn va.apiObjects p.kind with
        | none => none
        | some ao => some (va, ao)

/-- The `root.getAPIObjectHelper` from `emit.go`.  NOTE (faithful to the
source): the flag selection is inverted — `hidden = true` selects
`root.groups` and `hidden = false` selects `root.hiddenGroups`. -/
def getAPIObjectHelper (r : Root) (parsedName : DefName) (hidden : Bool) :
    Except String (VersionedAPI × APIObject) :=
  match parsedName.version with
  | none => .error ("Cannot get API object with nil version: " ++ parsedName.raw)
  | some version =>
    let groupName := parsedName.group.getD "core"
    let gs := if hidden then r.groups else r.hiddenGroups
    match findGroup gs groupName with
    | none => .error ("Could not retrieve object, group in path " ++
        parsedName.raw ++ " does not exist")
    | some group =>
      match findVA group.versionedAPIs version with
      | none => .error ("Could not retrieve object, versioned API in path " ++
          parsedName.raw ++ " does not exist")
      | some va =>
        match findAOIn va.apiObjects parsedName.kind with
        | none => .error ("Could not retrieve object, kind in path " ++
            parsedName.raw ++ " does not exist")
        | some ao => .ok (va, ao)

/-- The `root.getAPIObject` from `emit.go`: first helper call with
`hidden = false` (which, through the inverted flag, searches the hidden
tree), then with `hidden = true` (the visible tree); a failure of both
is fatal with the second error. -/
def getAPIObject (r : Root) (parsedName : DefName) :
    Except String (VersionedAPI × APIObject) :=
  match getAPIObjectHelper r parsedName false with
  | .ok x => .ok x
  | .error _ =>
    match getAPIObjectHelper r parsedName true with
    | .ok x => .ok x
    | .error e => .error e

/-- The comment block emission (`comments.emit` / `visitComments`): one
`//` line per comment line, with no trailing space on empty lines. -/
def commentLines (cs : List String) : List String :=
  cs.map (fun c => if c = "" then "//" else "// " ++ c)

/-- Emitter output: the written lines (the `indentWriter` content,
indentation depth abstracted away) and the `log.Printf` diagnostics. -/
abbrev EmitOut := List String × List String

/-- Concatenation of two emitter outputs. -/
def outAppend (a b : EmitOut) : EmitOut :=
  (a.1 ++ b.1, a.2 ++ b.2)

/-- Sequential emission over a list of properties with a fixed
per-property emitter, concatenating lines and diagnostics and
propagating the first fatal error. -/
def seqEmit (f : Property → Except String EmitOut) : List Property → Except String EmitOut
  | [] => .ok ([], [])
  | p :: ps =>
    match f p with
    | .error e => .error e
    | .ok a =>
      match seqEmit f ps with
      | .error e => .error e
      | .ok b => .ok (outAppend a b)

/-- The alias target path resolution at the top of
`property.emitAsTypeAlias`: the `$ref` path, or failing that the array
item `$ref` path (absent only when Go would dereference nil). -/
def aliasTarget (p : Property) : Option DefName :=
  match p.ref with
  | some r => some r.name
  | none => p.items.map ObjectRef.name

/-- The `property.emitAsTypeAlias` / `emitVisitor.visitTypeAlias`: a target
that parses to no version logs a diagnostic and emits nothing — it
never aborts; otherwise emit the `hidden` passthrough binding with the
rewrite applied to the suffix-stripped base name. -/
def emitAsTypeAlias (C : Ctx) (kv : String) (p : Property) : Except String EmitOut :=
  match aliasTarget p with
  | none => .error "nil dereference of itemTypes.Ref"
  | some path =>
    match path.version with
    | none => .ok ([], ["Could not emit type alias for " ++ path.raw])
    | some version =>
      let trimmedName := trimSuffix p.name "Type"
      let typeName := C.rewriteAsIdentifier kv trimmedName ++ "Type"
      let group := path.group.getD "core"
      let id := C.rewriteAsIdentifier kv path.kind
      .ok ([typeName ++ ":: hidden." ++ group ++ "." ++ version ++ "." ++ id ++ ","], [])

/-- The `apiObject.emitAsRefMixins`, parameterized by the emitter used for
the properties of the target object (`emitChild` is instantiated with the
recursive property emitter at the next lower fuel).  Emits the local
mixin function (composed with the enclosing qualifier when there is
one), the `mixinInstance` binding, and every non-special
sorted-and-filtered property of the target as a ref mixin keyed by the
new mixin name. -/
def emitAsRefMixinsWith (C : Ctx) (kv : String)
    (emitChild : Property → Option String → Except String EmitOut)
    (va : VersionedAPI) (ao : APIObject) (p : Property)
    (parentMixinName : Option String) : Except String EmitOut :=
  let functionName := C.rewriteAsIdentifier kv p.name
  let paramName := C.rewriteAsFuncParam kv p.name
  let fieldName := C.rewriteAsFieldKey p.name
  let mixinName := "__" ++ functionName ++ "Mixin"
  let mixinText :=
    match parentMixinName with
    | none => "local " ++ mixinName ++ "(" ++ paramName ++ ") = \x7b" ++
        fieldName ++ "+: " ++ paramName ++ "\x7d,"
    | some q => "local " ++ mixinName ++ "(" ++ paramName ++ ") = " ++ q ++
        "(\x7b" ++ fieldName ++ "+: " ++ paramName ++ "\x7d),"
  if (findAOIn va.apiObjects functionName).isSome then
    .error ("Tried to lowercase first character of object kind " ++ functionName ++
      ", but lowercase name was already present in version " ++ va.version)
  else
    match seqEmit
        (fun pm => if C.special pm.name then .ok ([], []) else emitChild pm (some mixinName))
        (sortAndFilterBlacklisted C kv ao.properties) with
    | .error e => .error e
    | .ok body =>
      .ok ([functionName ++ ":: \x7b", mixinText,
            "mixinInstance(" ++ paramName ++ "):: " ++ mixinName ++ "(" ++ paramName ++ "),"]
           ++ body.1 ++ ["\x7d,"],
           body.2)

/-- The `property.emitHelper` from `emit.go` (also covering `property.emit`
with `parentMixinName = none` and `property.emitAsRefMixin` with
`parentMixinName = some _`), with a fuel parameter bounding the
recursive mixin expansion through `emitAsRefMixinsWith`. -/
def emitProperty (C : Ctx) (r : Root) : Nat → Property → Option String →
    Except String EmitOut
  | 0, _, _ => .error "insufficient fuel"
  | fuel + 1, p, parentMixinName =>
    if p.kind = .typeAlias then emitAsTypeAlias C r.specVersion p
    else
      let kv := r.specVersion
      let cl := commentLines p.comments
      let setterFunctionName := C.toSetterID (C.rewriteAsIdentifier kv p.name)
      let mixinFunctionName := C.toMixinID (C.rewriteAsIdentifier kv p.name)
      let paramName := C.rewriteAsFuncParam kv p.name
      let fieldName := C.rewriteAsFieldKey p.name
      let setterSignature := setterFunctionName ++ "(" ++ paramName ++ ")::"
      let mixinSignature := mixinFunctionName ++ "(" ++ paramName ++ ")::"
      match p.ref with
      | some orf =>
        if orf.mixinEligible then
          match getAPIObject r orf.name with
          | .error e => .error e
          | .ok (va, ao) =>
            match emitAsRefMixinsWith C kv (fun pm pmn => emitProperty C r fuel pm pmn)
                va ao p parentMixinName with
            | .error e => .error e
            | .ok out => .ok (cl ++ out.1, out.2)
        else
          let body :=
            match parentMixinName with
            | none => "\x7b" ++ fieldName ++ ": " ++ paramName ++ "\x7d"
            | some q => q ++ "(\x7b" ++ fieldName ++ ": " ++ paramName ++ "\x7d)"
          .ok (cl ++ [setterSignature ++ " " ++ body ++ ","], [])
      | none =>
        match p.schemaType with
        | none => .error "Neither a type nor a ref"
        | some paramType =>
          if paramType = "array" then
            let setterBody :=
              match parentMixinName with
              | none => "if std.type(" ++ paramName ++ ") == \"array\" then \x7b" ++
                  fieldName ++ ": " ++ paramName ++ "\x7d else \x7b" ++
                  fieldName ++ ": [" ++ paramName ++ "]\x7d"
              | some q => "if std.type(" ++ paramName ++ ") == \"array\" then " ++ q ++
                  "(\x7b" ++ fieldName ++ ": " ++ paramName ++ "\x7d) else " ++ q ++
                  "(\x7b" ++ fieldName ++ ": [" ++ paramName ++ "]\x7d)"
            let mixinBody :=
              match parentMixinName with
              | none => "if std.type(" ++ paramName ++ ") == \"array\" then \x7b" ++
                  fieldName ++ "+: " ++ paramName ++ "\x7d else \x7b" ++
                  fieldName ++ "+: [" ++ paramName ++ "]\x7d"
              | some q => "if std.type(" ++ paramName ++ ") == \"array\" then " ++ q ++
                  "(\x7b" ++ fieldName ++ "+: " ++ paramName ++ "\x7d) else " ++ q ++
                  "(\x7b" ++ fieldName ++ "+: [" ++ paramName ++ "]\x7d)"
            .ok (cl ++ [setterSignature ++ " self + " ++ setterBody ++ ","] ++
                 cl ++ [mixinSignature ++ " self + " ++ mixinBody ++ ","], [])
          else if paramType = "integer" ∨ paramType = "string" ∨ paramType = "boolean" then
            let setterBody :=
              match parentMixinName with
              | none => "\x7b" ++ fieldName ++ ": " ++ paramName ++ "\x7d"
              | some q => q ++ "(\x7b" ++ fieldName ++ ": " ++ paramName ++ "\x7d)"
            .ok (cl ++ [setterSignature ++ " self + " ++ setterBody ++ ","], [])
          else if paramType = "object" then
            let setterBody :=
              match parentMixinName with
              | none => "\x7b" ++ fieldName ++ ": " ++ paramName ++ "\x7d"
              | some q => q ++ "(\x7b" ++ fieldName ++ ": " ++ paramName ++ "\x7d)"
            let mixinBody :=
              match parentMixinName with
              | none => "\x7b" ++ fieldName ++ "+: " ++ paramName ++ "\x7d"
              | some q => q ++ "(\x7b" ++ fieldName ++ "+: " ++ paramName ++ "\x7d)"
            .ok (cl ++ [setterSignature ++ " self + " ++ setterBody ++ ","] ++
                 cl ++ [mixinSignature ++ " self + " ++ mixinBody ++ ","], [])
          else .error ("Unrecognized type " ++ paramType)

/-- Modelled from the spec: the default constructor identifier (not
under `src/`; the spec requires a `new()` constructor). -/
def constructorName : String := "new"

/-- Modelled from the spec: the implicit setters seeding a top-level
constructor body (not under `src/`; per the spec, the constructor of a
top-level object always seeds the body with the implicit `kind` and
`apiVersion` setters). -/
def specialPropertiesList : List String := ["apiVersion", "kind"]

/-- Join strings with a separator (`strings.Join`). -/
def joinSep (sep : String) : List String → String
  | [] => ""
  | [x] => x
  | x :: xs => x ++ sep ++ joinSep sep xs

/-- The parameter loop of `apiObject.emitConstructor`: build the
parameter literals and the setter invocations, aborting when a
referenced property does not exist. -/
def ctorParamsFold (C : Ctx) (kv : String) (ao : APIObject) :
    List CtorParam → Except String (List String × List String)
  | [] => .ok ([], [])
  | param :: rest =>
    let lit :=
      match param.defaultValue with
      | some dv => param.id ++ "=" ++ dv
      | none => param.id
    match ((match param.relativePath with
           | none =>
             match lookupProp ao.properties param.id with
             | none => .error ("Attempted to create constructor, but property " ++
                 param.id ++ " does not exist")
             | some prop => .ok ("self." ++ C.toSetterID (C.rewriteAsIdentifier kv prop.name) ++
                 "(" ++ param.id ++ ")")
           | some rp => .ok ("self." ++ rp ++ "(" ++ param.id ++ ")")) :
          Except String String) with
    | .error e => .error e
    | .ok setter =>
      match ctorParamsFold C kv ao rest with
      | .error e => .error e
      | .ok (lits, setters) => .ok (lit :: lits, setter :: setters)

/-- The `apiObject.emitConstructor` from `emit.go`. -/
def emitConstructor (C : Ctx) (kv : String) (ao : APIObject) (id : String)
    (params : List CtorParam) : Except String EmitOut :=
  if (lookupProp ao.properties id).isSome then
    .error ("Attempted to create constructor, but " ++ id ++
      " property already existed at " ++ ao.parsedName.raw)
  else
    let defaultSetters := if ao.isTopLevel then specialPropertiesList else ["\x7b\x7d"]
    match ctorParamsFold C kv ao params with
    | .error e => .error e
    | .ok (lits, setters) =>
      .ok ([id ++ "(" ++ joinSep ", " lits ++ "):: " ++
            joinSep " + " (defaultSetters ++ setters) ++ ","], [])

/-- The constructor-spec loop of `apiObject.emitConstructors`. -/
def emitCtorList (C : Ctx) (kv : String) (ao : APIObject) :
    List CtorSpec → Except String EmitOut
  | [] => .ok ([], [])
  | s :: rest =>
    match emitConstructor C kv ao s.id s.params with
    | .error e => .error e
    | .ok a =>
      match emitCtorList C kv ao rest with
      | .error e => .error e
      | .ok b => .ok (outAppend a b)

/-- The `apiObject.emitConstructors` from `emit.go`: the customization
table supplies the constructor specs, else the default `new()`. -/
def emitConstructors (C : Ctx) (kv : String) (ao : APIObject) : Except String EmitOut :=
  match C.ctorSpecs kv ao.parsedName.raw with
  | none => emitConstructor C kv ao constructorName []
  | some specs => emitCtorList C kv ao specs

/-- The non-special, non-mixin-ref property selection of the first
emission loop in `apiObject.emit` (the plain setter site). -/
def aoSetterSelection (C : Ctx) (kv : String) (ps : List Property) : List Property :=
  (sortAndFilterBlacklisted C kv ps).filter
    (fun pm => !(C.special pm.name || isMixinRef pm.ref))

/-- The mixin-ref property selection of the second emission loop in
`apiObject.emit` (the `mixin::` namespace site). -/
def aoMixinSelection (C : Ctx) (kv : String) (ps : List Property) : List Property :=
  (sortAndFilterBlacklisted C kv ps).filter (fun pm => isMixinRef pm.ref)

/-- The `apiObject.emit` from `emit.go`: the identifier-collision check, the
comments and header, the implicit `kind` binding for top-level objects,
the constructors, the plain setter loop, and the `mixin::` namespace
loop. -/
def apiObjectEmit (C : Ctx) (r : Root) (fuel : Nat) (va : VersionedAPI) (ao : APIObject) :
    Except String EmitOut :=
  let kv := r.specVersion
  let jsonnetName := C.rewriteAsIdentifier kv ao.name
  if (findAOIn va.apiObjects jsonnetName).isSome then
    .error ("Tried to lowercase first character of object kind " ++ jsonnetName ++
      ", but lowercase name was already present in version " ++ va.version)
  else
    match emitConstructors C kv ao with
    | .error e => .error e
    | .ok ctors =>
      match seqEmit (fun pm => emitProperty C r fuel pm none)
          (aoSetterSelection C kv ao.properties) with
      | .error e => .error e
      | .ok setters =>
        match seqEmit (fun pm => emitProperty C r fuel pm none)
            (aoMixinSelection C kv ao.properties) with
        | .error e => .error e
        | .ok mixins =>
          .ok (commentLines ao.comments ++
               [jsonnetName ++ ":: \x7b"] ++
               (if ao.isTopLevel then
                 ["local kind = \x7bkind: \"" ++ ao.name ++ "\"\x7d,"] else []) ++
               ctors.1 ++ setters.1 ++
               ["mixin:: \x7b"] ++ mixins.1 ++ ["\x7d,", "\x7d,"],
               ctors.2 ++ setters.2 ++ mixins.2)

/-- The sorted object loop of `versionedAPI.emit`. -/
def emitAOList (C : Ctx) (r : Root) (fuel : Nat) (va : VersionedAPI) :
    List APIObject → Except String EmitOut
  | [] => .ok ([], [])
  | ao :: rest =>
    match apiObjectEmit C r fuel va ao with
    | .error e => .error e
    | .ok a =>
      match emitAOList C r fuel va rest with
      | .error e => .error e
      | .ok b => .ok (outAppend a b)

/-- The `versionedAPI.emit` from `emit.go`: the version header, the local
`apiVersion` binding built from the qualified name of the group, and the
objects in sorted order. -/
def versionedAPIEmit (C : Ctx) (r : Root) (fuel : Nat) (qualifiedName : String)
    (va : VersionedAPI) : Except String EmitOut :=
  let apiVersionLine :=
    if qualifiedName = "core" then
      "local apiVersion = \x7bapiVersion: \"" ++ va.version ++ "\"\x7d,"
    else
      "local apiVersion = \x7bapiVersion: \"" ++ qualifiedName ++ "/" ++ va.version ++ "\"\x7d,"
  match emitAOList C r fuel va (sortByKey APIObject.name va.apiObjects) with
  | .error e => .error e
  | .ok body =>
    .ok ([va.version ++ ":: \x7b", apiVersionLine] ++ body.1 ++ ["\x7d,"], body.2)

/-- The sorted versioned-API loop of `group.emit`. -/
def emitVAList (C : Ctx) (r : Root) (fuel : Nat) (qualifiedName : String) :
    List VersionedAPI → Except String EmitOut
  | [] => .ok ([], [])
  | va :: rest =>
    match versionedAPIEmit C r fuel qualifiedName va with
    | .error e => .error e
    | .ok a =>
      match emitVAList C r fuel qualifiedName rest with
      | .error e => .error e
      | .ok b => .ok (outAppend a b)

/-- The `group.emit` from `emit.go`. -/
def groupEmit (C : Ctx) (r : Root) (fuel : Nat) (g : Group) : Except String EmitOut :=
  let mixinName := C.rewriteAsIdentifier r.specVersion g.name
  match emitVAList C r fuel g.qualifiedName (sortByKey VersionedAPI.version g.versionedAPIs) with
  | .error e => .error e
  | .ok body => .ok ([mixinName ++ ":: \x7b"] ++ body.1 ++ ["\x7d,"], body.2)

/-- The header block of `root.emit` / `emitVisitor.visitRoot`.  NOTE
(faithful to the source): both guards test `ksonnetLibSHA`; the
Kubernetes-spec line is gated on the first stamp and dereferences the
second stamp unconditionally (a nil dereference is modelled as an
error). -/
def rootEmitHeader (specVersion : String) (ksonnetLibSHA k8sSHA : Option String) :
    Except String (List String) :=
  let base := ["// AUTOGENERATED from the Kubernetes OpenAPI specification. DO NOT MODIFY.",
               "// Kubernetes version: " ++ specVersion]
  let l1 :=
    match ksonnetLibSHA with
    | some s => ["// SHA of ksonnet-lib HEAD: " ++ s]
    | none => []
  match ksonnetLibSHA with
  | some _ =>
    match k8sSHA with
    | some t => .ok (base ++ l1 ++
        ["// SHA of Kubernetes HEAD OpenAPI spec is generated from: " ++ t] ++ [""])
    | none => .error "nil dereference of k8sSHA"
  | none => .ok (base ++ l1 ++ [""])

/-- The sorted group loop of `root.emit`. -/
def emitGroupList (C : Ctx) (r : Root) (fuel : Nat) : List Group → Except String EmitOut
  | [] => .ok ([], [])
  | g :: rest =>
    match groupEmit C r fuel g with
    | .error e => .error e
    | .ok a =>
      match emitGroupList C r fuel rest with
      | .error e => .error e
      | .ok b => .ok (outAppend a b)

/-- The `root.emit` from `emit.go`: header, visible groups in sorted order,
then the `local hidden` block with the hidden groups in sorted order. -/
def rootEmit (C : Ctx) (fuel : Nat) (r : Root) : Except String EmitOut :=
  match rootEmitHeader r.specVersion r.ksonnetLibSHA r.k8sSHA with
  | .error e => .error e
  | .ok header =>
    match emitGroupList C r fuel (sortByKey Group.name r.groups) with
    | .error e => .error e
    | .ok vis =>
      match emitGroupList C r fuel (sortByKey Group.name r.hiddenGroups) with
      | .error e => .error e
      | .ok hid =>
        .ok (header ++ ["\x7b"] ++ vis.1 ++
             ["local hidden = \x7b"] ++ hid.1 ++ ["\x7d,", "\x7d"],
             vis.2 ++ hid.2)

/-- The `Emit` from `emit.go`, for the library body document: build the root
from the definitions (in map iteration order) and render it.  A
construction or emission panic yields an error and no document. -/
def Emit (C : Ctx) (fuel : Nat) (ver : String) (ksha k8ssha : Option String)
    (defs : List (DefName × SchemaDefinition)) : Except String EmitOut :=
  match newRoot ver ksha k8ssha defs with
  | .error e => .error e
  | .ok r => rootEmit C fuel r

/-- Tagged lookup mirroring `root.getAPIObject` but also returning where
in the root tree the target lives (to model mutation through the shared
`*apiObject`): the first helper call reaches `hiddenGroups`. -/
def getAPIObjectLoc (r : Root) (p : DefName) :
    Except String (Loc × VersionedAPI × APIObject) :=
  match getAPIObjectHelper r p false with
  | .ok (va, ao) => .ok (⟨false, p.group.getD "core", p.version.getD "", p.kind⟩, va, ao)
  | .error _ =>
    match getAPIObjectHelper r p true with
    | .ok (va, ao) => .ok (⟨true, p.group.getD "core", p.version.getD "", p.kind⟩, va, ao)
    | .error e => .error e

/-- Assign `parentMixinName := q` to the property when its name is `n`
(the map-entry update behind the shared property pointer). -/
def setPMNProp (n q : String) (pm : Property) : Property :=
  if pm.name == n then { pm with parentMixinName := q } else pm

/-- Apply the `parentMixinName` write to the property set of an API
object. -/
def setPMNAO (n q : String) (ao : APIObject) : APIObject :=
  { ao with properties := ao.properties.map (setPMNProp n q) }

/-- The write `pm.parentMixinName = rmao.parentMixinName` of
`refMixinAPIObject.accept`, applied to the property named `n` of the
object at `loc`. -/
def setParentMixinNameAt (r : Root) (loc : Loc) (n q : String) : Root :=
  updateAOAt r loc (setPMNAO n q)

/-- State-threading fold over a list, propagating errors. -/
def stateFold (step : Root → α → Except String Root) : Root → List α → Except String Root
  | r, [] => .ok r
  | r, x :: rest =>
    match step r x with
    | .error e => .error e
    | .ok r1 => stateFold step r1 rest

/-- The model-tree state effect of `refMixinAPIObject.accept` together
with the collision check of `visitRefMixinAPIObject`: for every
non-special sorted-and-filtered property of the target object, the
write `pm.parentMixinName = rmao.parentMixinName` (value `q`) followed
by the child visit; afterwards the fatal identifier-collision check of
the visitor.  `child` is instantiated with the recursive
`propertyAccept` at the next lower fuel. -/
def rmaoAccept (C : Ctx) (child : Root → Property → Except String Root)
    (r : Root) (loc : Loc) (va : VersionedAPI) (ao : APIObject) (p : Property)
    (q : String) : Except String Root :=
  let sel := (sortAndFilterBlacklisted C r.specVersion ao.properties).filter
    (fun pm => ! C.special pm.name)
  match stateFold (fun st pm => child (setParentMixinNameAt st loc pm.name q) pm) r sel with
  | .error e => .error e
  | .ok r1 =>
    let functionName := C.rewriteAsIdentifier r.specVersion p.name
    if (findAOIn va.apiObjects functionName).isSome then
      .error ("Tried to lowercase first character of object kind " ++ functionName ++
        ", but lowercase name was already present in version " ++ va.version)
    else .ok r1

/-- The model-tree state effect of `property.accept` from the visitor
path: type aliases and plain properties change nothing; a
mixin-eligible reference resolves its target and visits it as a
`refMixinAPIObject`, which is constructed (`emit.go` line 810) with its
`parentMixinName` field left at the Go zero value `""`.  The fatal
checks of `property.accept` are modelled as errors. -/
def propertyAccept (C : Ctx) : Nat → Root → Property → Except String Root
  | 0, _, _ => .error "insufficient fuel"
  | fuel + 1, r, p =>
    if p.kind = .typeAlias then .ok r
    else
      match p.ref with
      | some orf =>
        if orf.mixinEligible then
          match getAPIObjectLoc r orf.name with
          | .error e => .error e
          | .ok (loc, va, ao) =>
            rmaoAccept C (fun st pm => propertyAccept C fuel st pm) r loc va ao p ""
        else .ok r
      | none =>
        match p.schemaType with
        | none => .error "Neither a type nor a ref"
        | some _ => .ok r

/-- The state effect of `apiObject.accept`: visit every
sorted-and-filtered property. -/
def apiObjectAccept (C : Ctx) (fuel : Nat) (r : Root) (ao : APIObject) : Except String Root :=
  stateFold (fun st pm => propertyAccept C fuel st pm) r
    (sortAndFilterBlacklisted C r.specVersion ao.properties)

/-- The state effect of `versionedAPI.accept`. -/
def versionedAPIAccept (C : Ctx) (fuel : Nat) (r : Root) (va : VersionedAPI) :
    Except String Root :=
  stateFold (fun st ao => apiObjectAccept C fuel st ao) r
    (sortByKey APIObject.name va.apiObjects)

/-- The state effect of `group.accept`. -/
def groupAccept (C : Ctx) (fuel : Nat) (r : Root) (g : Group) : Except String Root :=
  stateFold (fun st va => versionedAPIAccept C fuel st va) r
    (sortByKey VersionedAPI.version g.versionedAPIs)

/-- The state effect of `root.accept`: visible groups first, then the
hidden groups. -/
def rootAccept (C : Ctx) (fuel : Nat) (r : Root) : Except String Root :=
  match stateFold (fun st g => groupAccept C fuel st g) r (sortByKey Group.name r.groups) with
  | .error e => .error e
  | .ok r1 =>
    stateFold (fun st g => groupAccept C fuel st g) r1 (sortByKey Group.name r.hiddenGroups)

/-- A naming context whose table components are all trivial, used for
concrete evaluations. -/
def C0 : Ctx where
  rewriteAsIdentifier := fun _ s => "x" ++ s
  rewriteAsFuncParam := fun _ s => s
  rewriteAsFieldKey := fun s => s
  toSetterID := fun s => "with" ++ s
  toMixinID := fun s => "mix" ++ s
  blacklisted := fun _ _ _ => false
  ctorSpecs := fun _ _ => none
  special := fun _ => false

/-- A sample definition path with a version, used in concrete inputs. -/
def dnEx : DefName := ⟨"core.v1.Thing", some "core", some "v1", "Thing"⟩

/-- Concrete property set for claim C2: a method `spec`, a method
`specAbc`, and the type alias `specType` (as synthesized for a
mixin-eligible reference property).  Under the full-name order used by
the code, `specAbc` sorts between `spec` and `specType`; under the
stripped-name order the claim describes, `spec` and `specType` sort
together, in front of `specAbc`. -/
def c2Props : List Property :=
  [ { kind := .method, ref := none, schemaType := some "object", items := none,
      name := "spec", path := dnEx, comments := [""], parentMixinName := "" },
    { kind := .method, ref := none, schemaType := some "string", items := none,
      name := "specAbc", path := dnEx, comments := [""], parentMixinName := "" },
    { kind := .typeAlias, ref := some ⟨⟨"core.v1.Spec", some "core", some "v1", "Spec"⟩, true⟩,
      schemaType := none, items := none,
      name := "specType", path := dnEx, comments := [""], parentMixinName := "" } ]

deriving instance DecidableEq for Except

/-- Membership in the sorted-and-filtered selection: exactly the
members of the property set that survive the filter. -/
theorem mem_sAFB (C : Ctx) (kv : String) (ps : List Property) (pm : Property) :
    pm ∈ sortAndFilterBlacklisted C kv ps ↔ pm ∈ ps ∧ keepProperty C kv pm = true := by
  rw [sortAndFilterBlacklisted, mem_sortByKey, List.mem_filter]

/-- Splitting the definition loop around an append. -/
theorem addDefinitions_append (l1 l2 : List (DefName × SchemaDefinition)) :
    ∀ r : Root, addDefinitions r (l1 ++ l2) =
      match addDefinitions r l1 with
      | .error e => .error e
      | .ok r1 => addDefinitions r1 l2 := by
  induction l1 with
  | nil => intro r; rfl
  | cons x rest ih =>
    intro r
    obtain ⟨p, d⟩ := x
    simp only [List.cons_append, addDefinitions]
    cases addDefinition r p d with
    | error e => rfl
    | ok r1 => exact ih r1

/-- Claim C2, counterexample: the emission order produced by the code is
NOT the order obtained by sorting on the alias-stripped name — on
`c2Props` the code yields `spec, specAbc, specType` while the claimed
order is `spec, specType, specAbc`. -/
theorem c2_counterexample :
    (sortAndFilterBlacklisted C0 "v7" c2Props).map Property.name =
      ["spec", "specAbc", "specType"] ∧
    (claimedSelection C0 "v7" c2Props).map Property.name =
      ["spec", "specType", "specAbc"] ∧
    sortAndFilterBlacklisted C0 "v7" c2Props ≠ claimedSelection C0 "v7" c2Props := by
  refine ⟨by decide, by decide, by decide⟩

/-- Claim C2, amended: the properties selected for emission are exactly
the members of the property set that are not blacklisted (the blacklist
lookup uses the alias-stripped name) and whose `$ref`, when present,
parses to a version; they are sorted in ascending lexicographic order
of the full property name, with the `Type` suffix still attached. -/
theorem c2_amended (C : Ctx) (kv : String) (ps : List Property) :
    (sortAndFilterBlacklisted C kv ps).Sorted (fun a b => strLe a.name b.name = true) ∧
    ∀ pm : Property,
      pm ∈ sortAndFilterBlacklisted C kv ps ↔ pm ∈ ps ∧ keepProperty C kv pm = true := by
  constructor
  · exact sortByKey_sorted _ _
  · intro pm
    rw [sortAndFilterBlacklisted, mem_sortByKey, List.mem_filter]

/-- Claim C7: a definition whose path carries no version is skipped by
`root.addDefinition` without error (the root is returned unchanged),
and the run with that definition present builds exactly the root — and
hence the output — of the run without it. -/
theorem c7_versionless_skipped (path : DefName) (d : SchemaDefinition)
    (h : path.version = none) :
    (∀ r : Root, addDefinition r path d = .ok r) ∧
    ∀ (ver : String) (ksha k8ssha : Option String)
      (pre post : List (DefName × SchemaDefinition)),
      newRoot ver ksha k8ssha (pre ++ (path, d) :: post) =
        newRoot ver ksha k8ssha (pre ++ post) := by
  have h1 : ∀ r : Root, addDefinition r path d = .ok r := by
    intro r
    simp [addDefinition, h]
  refine ⟨h1, ?_⟩
  intro ver ksha k8ssha pre post
  rw [newRoot, newRoot, addDefinitions_append, addDefinitions_append]
  cases addDefinitions (emptyRoot ver ksha k8ssha) pre with
  | error e => rfl
  | ok r1 => simp [addDefinitions, h1 r1]

/-- A versionless definition path, for the claim C7 witness. -/
def dnNoVer : DefName :=
  ⟨"io.k8s.apimachinery.pkg.runtime.RawExtension", none, none, "RawExtension"⟩

/-- An empty schema definition, for concrete inputs. -/
def sdEmpty : SchemaDefinition := ⟨"", [], []⟩

/-- Witness for claim C7 at a concrete versionless definition. -/
theorem c7_witness :
    dnNoVer.version = none ∧
    addDefinition (emptyRoot "1.7.0" none none) dnNoVer sdEmpty =
      .ok (emptyRoot "1.7.0" none none) := by
  exact ⟨rfl, (c7_versionless_skipped dnNoVer sdEmpty rfl).1 _⟩

/-- Claim C5: adding a definition whose (group, version, kind) chain is
already present in the tree it routes to is fatal — the whole
construction, and hence `Emit`, yields exactly the duplicate-kind error
naming the offending path, and no output document is produced. -/
theorem c5_duplicate_kind_fatal
    (ver : String) (ksha k8ssha : Option String)
    (pre post : List (DefName × SchemaDefinition))
    (path : DefName) (d : SchemaDefinition) (r : Root) (v : String)
    (hpre : newRoot ver ksha k8ssha pre = .ok r)
    (hv : path.version = some v)
    (hdup : (lookupChain (if d.topLevelSpecs.isEmpty then r.hiddenGroups else r.groups)
      path).isSome = true) :
    newRoot ver ksha k8ssha (pre ++ (path, d) :: post) =
      .error ("Duplicate object kinds with name " ++ path.raw) ∧
    ∀ (C : Ctx) (fuel : Nat),
      Emit C fuel ver ksha k8ssha (pre ++ (path, d) :: post) =
        .error ("Duplicate object kinds with name " ++ path.raw) := by
  have hgs : (if (!d.topLevelSpecs.isEmpty) then r.groups else r.hiddenGroups) =
      (if d.topLevelSpecs.isEmpty then r.hiddenGroups else r.groups) := by
    cases d.topLevelSpecs.isEmpty <;> rfl
  have hcreate : ∀ q : String,
      createAPIObject r path d = .error ("Duplicate object kinds with name " ++ path.raw) := by
    intro _
    rw [createAPIObject, hv]
    dsimp only
    simp only [hgs]
    rw [lookupChain, hv] at hdup
    dsimp only at hdup
    cases hg : findGroup (if d.topLevelSpecs.isEmpty then r.hiddenGroups else r.groups)
        (path.group.getD "core") with
    | none => rw [hg] at hdup; simp at hdup
    | some g =>
      rw [hg] at hdup
      dsimp only at hdup
      simp only [Option.getD_some]
      cases hva : findVA g.versionedAPIs v with
      | none => rw [hva] at hdup; simp at hdup
      | some va =>
        rw [hva] at hdup
        dsimp only at hdup
        simp only [Option.getD_some]
        cases hao : findAOIn va.apiObjects path.kind with
        | none => rw [hao] at hdup; simp at hdup
        | some ao => rfl
  have hadd : addDefinition r path d =
      .error ("Duplicate object kinds with name " ++ path.raw) := by
    rw [addDefinition]
    have hvn : path.version.isNone = false := by rw [hv]; rfl
    rw [hvn]
    simp only [Bool.false_eq_true, if_false]
    rw [hcreate ""]
  have hroot : newRoot ver ksha k8ssha (pre ++ (path, d) :: post) =
      .error ("Duplicate object kinds with name " ++ path.raw) := by
    rw [newRoot, addDefinitions_append]
    rw [newRoot] at hpre
    rw [hpre]
    simp only [addDefinitions, hadd]
  refine ⟨hroot, ?_⟩
  intro C fuel
  rw [Emit, hroot]

/-- A top-level Deployment definition path, for the claim C5 witness. -/
def dnA : DefName := ⟨"io.k8s.api.apps.v1.Deployment", some "apps", some "v1", "Deployment"⟩

/-- A top-level schema definition in group `apps`, for the claim C5
witness. -/
def sdTop : SchemaDefinition := ⟨"desc", [], ["apps"]⟩

/-- The root built from the single-definition prefix of the claim C5
witness. -/
def c5Root : Root := (newRoot "1.7.0" none none [(dnA, sdTop)]).toOption.getD default

/-- Witness for claim C5: adding `apps/v1/Deployment` twice aborts with
the duplicate-kind error naming the path. -/
theorem c5_witness :
    newRoot "1.7.0" none none [(dnA, sdTop)] = .ok c5Root ∧
    dnA.version = some "v1" ∧
    (lookupChain (if sdTop.topLevelSpecs.isEmpty then c5Root.hiddenGroups else c5Root.groups)
      dnA).isSome = true ∧
    newRoot "1.7.0" none none ([(dnA, sdTop)] ++ (dnA, sdTop) :: []) =
      .error ("Duplicate object kinds with name " ++ dnA.raw) := by
  refine ⟨by decide, rfl, by decide, ?_⟩
  exact (c5_duplicate_kind_fatal "1.7.0" none none [(dnA, sdTop)] [] dnA sdTop c5Root "v1"
    (by decide) rfl (by decide)).1

/-- The helper lookup agrees with the plain lookup chain on the tree the
(inverted) flag selects, and fails exactly when the chain is absent. -/
theorem getAPIObjectHelper_chain (r : Root) (p : DefName) (hidden : Bool) (v : String)
    (hv : p.version = some v) :
    (∀ x, getAPIObjectHelper r p hidden = .ok x ↔
      lookupChain (if hidden then r.groups else r.hiddenGroups) p = some x) ∧
    (lookupChain (if hidden then r.groups else r.hiddenGroups) p = none →
      ∃ e, getAPIObjectHelper r p hidden = .error e) := by
  rw [getAPIObjectHelper, lookupChain, hv]
  dsimp only
  cases hg : findGroup (if hidden then r.groups else r.hiddenGroups) (p.group.getD "core") with
  | none => exact ⟨fun x => by simp, fun _ => ⟨_, rfl⟩⟩
  | some g =>
    dsimp only
    cases hva : findVA g.versionedAPIs v with
    | none => exact ⟨fun x => by simp, fun _ => ⟨_, rfl⟩⟩
    | some va =>
      dsimp only
      cases hao : findAOIn va.apiObjects p.kind with
      | none => exact ⟨fun x => by simp, fun _ => ⟨_, rfl⟩⟩
      | some ao =>
        refine ⟨fun x => ?_, fun hc => by simp at hc⟩
        constructor
        · intro h
          cases h
          rfl
        · intro h
          cases h
          rfl

/-- Claim C9: `root.getAPIObject` resolves in the hidden tree first;
only when the chain is absent there does it consult the visible tree;
when both fail, the result is the fatal error of the visible-tree
lookup. -/
theorem c9_hidden_first (r : Root) (p : DefName) (v : String) (hv : p.version = some v) :
    (∀ x, lookupChain r.hiddenGroups p = some x → getAPIObject r p = .ok x) ∧
    (∀ x, lookupChain r.hiddenGroups p = none → lookupChain r.groups p = some x →
      getAPIObject r p = .ok x) ∧
    (lookupChain r.hiddenGroups p = none → lookupChain r.groups p = none →
      ∃ e, getAPIObject r p = .error e ∧ getAPIObjectHelper r p true = .error e) := by
  have hfalse := getAPIObjectHelper_chain r p false v hv
  have htrue := getAPIObjectHelper_chain r p true v hv
  simp only [if_true, if_false, Bool.false_eq_true] at hfalse htrue
  refine ⟨?_, ?_, ?_⟩
  · intro x hx
    rw [getAPIObject, (hfalse.1 x).mpr hx]
  · intro x hnone hx
    obtain ⟨e, he⟩ := hfalse.2 hnone
    rw [getAPIObject, he, (htrue.1 x).mpr hx]
  · intro hnone1 hnone2
    obtain ⟨e1, he1⟩ := hfalse.2 hnone1
    obtain ⟨e2, he2⟩ := htrue.2 hnone2
    refine ⟨e2, ?_, he2⟩
    rw [getAPIObject, he1, he2]

/-- A hidden PodSpec definition path, for the claim C9 witness. -/
def dnHid : DefName := ⟨"io.k8s.api.core.v1.PodSpec", some "core", some "v1", "PodSpec"⟩

/-- The root holding only the hidden PodSpec, for the claim C9
witness. -/
def c9Root : Root := (newRoot "1.7.0" none none [(dnHid, sdEmpty)]).toOption.getD default

/-- The hidden-tree resolution target of the claim C9 witness. -/
def c9Target : VersionedAPI × APIObject :=
  (lookupChain c9Root.hiddenGroups dnHid).getD default

/-- Witness for claim C9: a kind present only in the hidden tree is
found there by `root.getAPIObject`. -/
theorem c9_witness :
    dnHid.version = some "v1" ∧
    lookupChain c9Root.hiddenGroups dnHid = some c9Target ∧
    getAPIObject c9Root dnHid = .ok c9Target := by
  refine ⟨rfl, by decide, ?_⟩
  exact (c9_hidden_first c9Root dnHid "v1" rfl).1 c9Target (by decide)

/-- Claim C8 is wrong on the code: both header guards test the FIRST
provenance stamp.  With only the second stamp provided, the
Kubernetes-spec SHA line is absent from the emitted header; with only
the first stamp provided, the header emission dereferences the absent
second stamp (a nil-dereference panic in Go); only when the first stamp
is present (and the second too) do both lines appear, each stamp
verbatim in its line. -/
theorem c8_header_gated_on_first_stamp :
    rootEmitHeader "1.7.0" none (some "k8ssha") =
      .ok ["// AUTOGENERATED from the Kubernetes OpenAPI specification. DO NOT MODIFY.",
           "// Kubernetes version: 1.7.0", ""] ∧
    rootEmitHeader "1.7.0" (some "libsha") none = .error "nil dereference of k8sSHA" ∧
    rootEmitHeader "1.7.0" (some "libsha") (some "k8ssha") =
      .ok ["// AUTOGENERATED from the Kubernetes OpenAPI specification. DO NOT MODIFY.",
           "// Kubernetes version: 1.7.0",
           "// SHA of ksonnet-lib HEAD: libsha",
           "// SHA of Kubernetes HEAD OpenAPI spec is generated from: k8ssha", ""] := by
  refine ⟨by decide, rfl, by decide⟩

/-- A top-level definition path `g/v1/Alpha`, for the claim C3
counterexample. -/
def dnGA : DefName := ⟨"g.v1.Alpha", some "g", some "v1", "Alpha"⟩

/-- A top-level definition path `g/v1/Beta`, for the claim C3
counterexample. -/
def dnGB : DefName := ⟨"g.v1.Beta", some "g", some "v1", "Beta"⟩

/-- A definition whose first top-level spec carries qualified group
`g.x`. -/
def sdGX : SchemaDefinition := ⟨"", [], ["g.x"]⟩

/-- A definition whose first top-level spec carries qualified group
`g.y`. -/
def sdGY : SchemaDefinition := ⟨"", [], ["g.y"]⟩

/-- Claim C3 is wrong on the code: the qualified name of a group is fixed
by whichever definition the map iteration happens to visit first, so
two runs of `Emit` over the same two-definition schema — differing only
in iteration order — both complete and produce different documents (the
`local apiVersion` line carries `g.x/v1` in one and `g.y/v1` in the
other). -/
theorem c3_iteration_order_changes_output :
    (Emit C0 4 "1.7.0" none none [(dnGA, sdGX), (dnGB, sdGY)]).toOption.isSome = true ∧
    (Emit C0 4 "1.7.0" none none [(dnGB, sdGY), (dnGA, sdGX)]).toOption.isSome = true ∧
    (Emit C0 4 "1.7.0" none none [(dnGA, sdGX), (dnGB, sdGY)]).toOption ≠
      (Emit C0 4 "1.7.0" none none [(dnGB, sdGY), (dnGA, sdGX)]).toOption := by
  refine ⟨by decide, by decide, by decide⟩

/-- Claim C4: for a method property with a declared schema type, no
object reference and no enclosing mixin qualifier, an `array` or
`object` type emits both a setter and a companion mixin function, a
scalar type (`integer`, `string`, `boolean`) emits only the setter and
no mixin variant, and the array setter body is the emitted runtime
branch that assigns the argument as-is when it is already a list and
wraps it in a one-element list otherwise. -/
theorem c4_schema_typed_property_emission (C : Ctx) (r : Root) (fuel : Nat)
    (nm : String) (path : DefName) (cmts : List String) :
    let kv := r.specVersion
    let cl := commentLines cmts
    let setterSignature := C.toSetterID (C.rewriteAsIdentifier kv nm) ++ "(" ++
      C.rewriteAsFuncParam kv nm ++ ")::"
    let mixinSignature := C.toMixinID (C.rewriteAsIdentifier kv nm) ++ "(" ++
      C.rewriteAsFuncParam kv nm ++ ")::"
    let paramName := C.rewriteAsFuncParam kv nm
    let fieldName := C.rewriteAsFieldKey nm
    (emitProperty C r (fuel + 1) ⟨.method, none, some "array", none, nm, path, cmts, ""⟩ none =
      .ok (cl ++ [setterSignature ++ " self + " ++
              ("if std.type(" ++ paramName ++ ") == \"array\" then \x7b" ++ fieldName ++
               ": " ++ paramName ++ "\x7d else \x7b" ++ fieldName ++ ": [" ++ paramName ++
               "]\x7d") ++ ","] ++
            cl ++ [mixinSignature ++ " self + " ++
              ("if std.type(" ++ paramName ++ ") == \"array\" then \x7b" ++ fieldName ++
               "+: " ++ paramName ++ "\x7d else \x7b" ++ fieldName ++ "+: [" ++ paramName ++
               "]\x7d") ++ ","],
           [])) ∧
    (emitProperty C r (fuel + 1) ⟨.method, none, some "object", none, nm, path, cmts, ""⟩ none =
      .ok (cl ++ [setterSignature ++ " self + " ++
              ("\x7b" ++ fieldName ++ ": " ++ paramName ++ "\x7d") ++ ","] ++
            cl ++ [mixinSignature ++ " self + " ++
              ("\x7b" ++ fieldName ++ "+: " ++ paramName ++ "\x7d") ++ ","], [])) ∧
    (emitProperty C r (fuel + 1) ⟨.method, none, some "integer", none, nm, path, cmts, ""⟩ none =
      .ok (cl ++ [setterSignature ++ " self + " ++
              ("\x7b" ++ fieldName ++ ": " ++ paramName ++ "\x7d") ++ ","], [])) ∧
    (emitProperty C r (fuel + 1) ⟨.method, none, some "string", none, nm, path, cmts, ""⟩ none =
      .ok (cl ++ [setterSignature ++ " self + " ++
              ("\x7b" ++ fieldName ++ ": " ++ paramName ++ "\x7d") ++ ","], [])) ∧
    (emitProperty C r (fuel + 1) ⟨.method, none, some "boolean", none, nm, path, cmts, ""⟩ none =
      .ok (cl ++ [setterSignature ++ " self + " ++
              ("\x7b" ++ fieldName ++ ": " ++ paramName ++ "\x7d") ++ ","], [])) := by
  exact ⟨rfl, rfl, rfl, rfl, rfl⟩

/-- Inserting a property whose emission succeeds with output `out0`
into the middle of an emission loop contributes exactly `out0` and
leaves the rest of the loop unchanged. -/
theorem seqEmit_middle (f : Property → Except String EmitOut) (p : Property) (out0 : EmitOut)
    (hp : f p = .ok out0) :
    ∀ (ps1 ps2 : List Property) (a b : EmitOut),
      seqEmit f ps1 = .ok a → seqEmit f ps2 = .ok b →
      seqEmit f (ps1 ++ p :: ps2) = .ok (a.1 ++ out0.1 ++ b.1, a.2 ++ out0.2 ++ b.2) := by
  intro ps1
  induction ps1 with
  | nil =>
    intro ps2 a b ha hb
    rw [seqEmit] at ha
    injection ha with ha'
    subst ha'
    show seqEmit f (p :: ps2) = _
    rw [seqEmit, hp]
    dsimp only
    rw [hb]
    simp [outAppend]
  | cons x rest ih =>
    intro ps2 a b ha hb
    rw [seqEmit] at ha
    cases hx : f x with
    | error e => rw [hx] at ha; exact Except.noConfusion ha
    | ok ax =>
      rw [hx] at ha
      dsimp only at ha
      cases hrest : seqEmit f rest with
      | error e => rw [hrest] at ha; exact Except.noConfusion ha
      | ok arest =>
        rw [hrest] at ha
        dsimp only at ha
        injection ha with ha'
        subst ha'
        have hmid := ih ps2 arest b hrest hb
        show seqEmit f (x :: (rest ++ p :: ps2)) = _
        rw [seqEmit, hx]
        dsimp only
        rw [hmid]
        simp [outAppend]

/-- Claim C6: a type-alias property whose target path parses to no
version is skipped with exactly one logged diagnostic and no emitted
line, without aborting; dropping it into any emission loop leaves the
lines of the rest of the loop unchanged and only adds the
diagnostic. -/
theorem c6_alias_unparsable_version_skipped (C : Ctx) (r : Root) (fuel : Nat)
    (p : Property) (pmn : Option String) (d : DefName)
    (hkind : p.kind = .typeAlias)
    (htarget : aliasTarget p = some d)
    (hver : d.version = none) :
    emitProperty C r (fuel + 1) p pmn =
      .ok ([], ["Could not emit type alias for " ++ d.raw]) ∧
    ∀ (ps1 ps2 : List Property) (a b : EmitOut),
      seqEmit (fun q => emitProperty C r (fuel + 1) q pmn) ps1 = .ok a →
      seqEmit (fun q => emitProperty C r (fuel + 1) q pmn) ps2 = .ok b →
      seqEmit (fun q => emitProperty C r (fuel + 1) q pmn) (ps1 ++ p :: ps2) =
        .ok (a.1 ++ b.1, a.2 ++ ["Could not emit type alias for " ++ d.raw] ++ b.2) := by
  have h1 : emitProperty C r (fuel + 1) p pmn =
      .ok ([], ["Could not emit type alias for " ++ d.raw]) := by
    rw [emitProperty, if_pos hkind, emitAsTypeAlias, htarget]
    dsimp only
    rw [hver]
  refine ⟨h1, ?_⟩
  intro ps1 ps2 a b ha hb
  have := seqEmit_middle (fun q => emitProperty C r (fuel + 1) q pmn) p
    ([], ["Could not emit type alias for " ++ d.raw]) h1 ps1 ps2 a b ha hb
  simpa using this

/-- An alias property whose reference path has no version, for the
claim C6 witness. -/
def c6Alias : Property :=
  ⟨.typeAlias, some ⟨⟨"io.k8s.apimachinery.pkg.util.intstr.IntOrString", none, none,
    "IntOrString"⟩, true⟩, none, none, "valType", dnEx, [""], ""⟩

/-- The versionless target path of `c6Alias`. -/
def dnIntOrString : DefName :=
  ⟨"io.k8s.apimachinery.pkg.util.intstr.IntOrString", none, none, "IntOrString"⟩

/-- An empty root, for concrete emission runs. -/
def rEmpty : Root := emptyRoot "1.7.0" none none

/-- Witness for claim C6 at a concrete alias with a versionless
target. -/
theorem c6_witness :
    c6Alias.kind = PropertyKind.typeAlias ∧
    aliasTarget c6Alias = some dnIntOrString ∧
    dnIntOrString.version = none ∧
    emitProperty C0 rEmpty 3 c6Alias none =
      .ok ([], ["Could not emit type alias for " ++ dnIntOrString.raw]) := by
  refine ⟨rfl, rfl, rfl, ?_⟩
  exact (c6_alias_unparsable_version_skipped C0 rEmpty 2 c6Alias none dnIntOrString
    rfl rfl rfl).1

/-- Claim C10: a non-alias property whose reference path does not parse
to a version is dropped by `sortAndFilterBlacklisted` with no
diagnostic — every emission-site selection (the plain setter loop, the
`mixin::` loop, and hence the ref-mixin loop, all of which select
through `sortAndFilterBlacklisted`) is exactly what it would be without
the property — while every other property that survives the filter is
retained. -/
theorem c10_unversioned_ref_silently_dropped (C : Ctx) (kv : String)
    (pm : Property) (orf : ObjectRef) (ps1 ps2 : List Property)
    (_hkind : pm.kind = .method) (href : pm.ref = some orf)
    (hver : orf.name.version = none) :
    sortAndFilterBlacklisted C kv (ps1 ++ pm :: ps2) =
      sortAndFilterBlacklisted C kv (ps1 ++ ps2) ∧
    pm ∉ sortAndFilterBlacklisted C kv (ps1 ++ pm :: ps2) ∧
    aoSetterSelection C kv (ps1 ++ pm :: ps2) = aoSetterSelection C kv (ps1 ++ ps2) ∧
    aoMixinSelection C kv (ps1 ++ pm :: ps2) = aoMixinSelection C kv (ps1 ++ ps2) ∧
    (∀ q, q ∈ ps1 ++ ps2 → keepProperty C kv q = true →
      q ∈ sortAndFilterBlacklisted C kv (ps1 ++ ps2)) := by
  have hkeep : keepProperty C kv pm = false := by
    rw [keepProperty, href]
    by_cases hb : C.blacklisted kv pm.path (blacklistName pm) = true
    · simp [hb]
    · simp only [Bool.not_eq_true] at hb
      simp [hb, hver]
  have hfilter : (ps1 ++ pm :: ps2).filter (keepProperty C kv) =
      (ps1 ++ ps2).filter (keepProperty C kv) := by
    simp [List.filter_append, List.filter_cons, hkeep]
  have h1 : sortAndFilterBlacklisted C kv (ps1 ++ pm :: ps2) =
      sortAndFilterBlacklisted C kv (ps1 ++ ps2) := by
    rw [sortAndFilterBlacklisted, sortAndFilterBlacklisted, hfilter]
  refine ⟨h1, ?_, ?_, ?_, ?_⟩
  · rw [h1]
    intro hmem
    rw [mem_sAFB] at hmem
    rw [hkeep] at hmem
    exact Bool.noConfusion hmem.2
  · rw [aoSetterSelection, aoSetterSelection, h1]
  · rw [aoMixinSelection, aoMixinSelection, h1]
  · intro q hq hkq
    exact (mem_sAFB C kv _ q).mpr ⟨hq, hkq⟩

/-- The versionless reference of the claim C10 witness. -/
def c10BadRef : ObjectRef := ⟨⟨"noversion.Ref", none, none, "Ref"⟩, false⟩

/-- A method property with a versionless reference path, for the claim
C10 witness. -/
def c10Bad : Property := ⟨.method, some c10BadRef, none, none, "badProp", dnEx, [""], ""⟩

/-- An ordinary string-typed method property retained by the filter,
for the claim C10 witness. -/
def c10Good : Property :=
  ⟨.method, none, some "string", none, "goodProp", dnEx, [""], ""⟩

/-- Witness for claim C10 at a concrete property set. -/
theorem c10_witness :
    c10Bad.kind = PropertyKind.method ∧
    c10Bad.ref = some c10BadRef ∧
    c10BadRef.name.version = none ∧
    sortAndFilterBlacklisted C0 "1.7.0" ([c10Good] ++ c10Bad :: []) =
      sortAndFilterBlacklisted C0 "1.7.0" ([c10Good] ++ []) := by
  refine ⟨rfl, rfl, rfl, ?_⟩
  exact (c10_unversioned_ref_silently_dropped C0 "1.7.0" c10Bad c10BadRef
    [c10Good] [] rfl rfl rfl).1

/-- All properties of an API object carry an empty `parentMixinName`. -/
def aoPMNEmpty (ao : APIObject) : Prop :=
  ∀ pm ∈ ao.properties, pm.parentMixinName = ""

/-- All objects of a versioned API satisfy `aoPMNEmpty`. -/
def vaPMNEmpty (va : VersionedAPI) : Prop :=
  ∀ ao ∈ va.apiObjects, aoPMNEmpty ao

/-- All versioned APIs of a group satisfy `vaPMNEmpty`. -/
def gPMNEmpty (g : Group) : Prop :=
  ∀ va ∈ g.versionedAPIs, vaPMNEmpty va

/-- Every property in the whole tree carries an empty
`parentMixinName`. -/
def rootPMNEmpty (r : Root) : Prop :=
  (∀ g ∈ r.groups, gPMNEmpty g) ∧ (∀ g ∈ r.hiddenGroups, gPMNEmpty g)

/-- A pointwise-identity map is the identity. -/
theorem listMapSelf {α : Type} (l : List α) (f : α → α) (h : ∀ x ∈ l, f x = x) :
    l.map f = l := by
  induction l with
  | nil => rfl
  | cons x rest ih =>
    rw [List.map_cons, h x (List.mem_cons_self x rest),
      ih (fun y hy => h y (List.mem_cons_of_mem x hy))]

/-- Membership after a map-style property insertion. -/
theorem mem_insertProp {ps : List Property} {p x : Property} (h : x ∈ insertProp ps p) :
    x ∈ ps ∨ x = p := by
  rw [insertProp] at h
  rcases List.mem_append.mp h with h1 | h1
  · exact Or.inl (List.mem_of_mem_filter h1)
  · exact Or.inr (List.mem_singleton.mp h1)

/-- Membership after a map-style group insertion. -/
theorem mem_setGroup {gs : List Group} {g x : Group} (h : x ∈ setGroup gs g) :
    x ∈ gs ∨ x = g := by
  rw [setGroup] at h
  by_cases hc : (gs.any fun y => y.name == g.name) = true
  · rw [if_pos hc] at h
    rcases List.mem_map.mp h with ⟨y, hy, hxy⟩
    by_cases hn : (y.name == g.name) = true
    · rw [if_pos hn] at hxy
      exact Or.inr hxy.symm
    · rw [if_neg hn] at hxy
      exact Or.inl (hxy ▸ hy)
  · rw [if_neg hc] at h
    rcases List.mem_append.mp h with h1 | h1
    · exact Or.inl h1
    · exact Or.inr (List.mem_singleton.mp h1)

/-- Membership after a map-style versioned-API insertion. -/
theorem mem_setVA {vas : List VersionedAPI} {va x : VersionedAPI}
    (h : x ∈ setVA vas va) : x ∈ vas ∨ x = va := by
  rw [setVA] at h
  by_cases hc : (vas.any fun y => y.version == va.version) = true
  · rw [if_pos hc] at h
    rcases List.mem_map.mp h with ⟨y, hy, hxy⟩
    by_cases hn : (y.version == va.version) = true
    · rw [if_pos hn] at hxy
      exact Or.inr hxy.symm
    · rw [if_neg hn] at hxy
      exact Or.inl (hxy ▸ hy)
  · rw [if_neg hc] at h
    rcases List.mem_append.mp h with h1 | h1
    · exact Or.inl h1
    · exact Or.inr (List.mem_singleton.mp h1)

/-- Every property built by the construction loop carries an empty
`parentMixinName` (both `newPropertyMethod` and `newPropertyTypeAlias`
leave the field at the Go zero value). -/
theorem buildProps_pmn (path : DefName) :
    ∀ (l : List (String × SchemaProperty)) (acc props : List Property),
      (∀ pm ∈ acc, pm.parentMixinName = "") →
      buildProps path acc l = .ok props →
      ∀ pm ∈ props, pm.parentMixinName = "" := by
  intro l
  induction l with
  | nil =>
    intro acc props hacc h
    rw [buildProps] at h
    injection h with h'
    subst h'
    exact hacc
  | cons x rest ih =>
    intro acc props hacc h
    obtain ⟨pname, sp⟩ := x
    rw [buildProps] at h
    dsimp only at h
    have hacc1 : ∀ pm ∈ insertProp acc (newPropertyMethod pname path sp),
        pm.parentMixinName = "" := by
      intro pm hpm
      rcases mem_insertProp hpm with h1 | h1
      · exact hacc pm h1
      · rw [h1]; rfl
    by_cases hcond : (isMixinRef sp.ref || (sp.type == some "array" && sp.items.isSome)) = true
    · rw [if_pos hcond] at h
      have haccTA : ∀ pm ∈ insertProp (insertProp acc (newPropertyMethod pname path sp))
          (newPropertyTypeAlias (pname ++ "Type") path sp), pm.parentMixinName = "" := by
        intro pm hpm
        rcases mem_insertProp hpm with h1 | h1
        · exact hacc1 pm h1
        · rw [h1]; rfl
      cases hlook : lookupProp (insertProp acc (newPropertyMethod pname path sp))
          (pname ++ "Type") with
      | none =>
        rw [hlook] at h
        exact ih _ props haccTA h
      | some ta =>
        rw [hlook] at h
        dsimp only at h
        by_cases hta : ta.kind = PropertyKind.typeAlias
        · rw [if_neg (fun hc => hc hta)] at h
          exact ih _ props haccTA h
        · rw [if_pos hta] at h
          exact Except.noConfusion h
    · rw [if_neg hcond] at h
      exact ih _ props hacc1 h

/-- A group created empty satisfies the invariant. -/
theorem gPMNEmpty_new (n qn : String) : gPMNEmpty (newGroup n qn) := by
  intro va hva
  exact absurd hva (List.not_mem_nil va)

/-- A versioned API created empty satisfies the invariant. -/
theorem vaPMNEmpty_new (v : String) : vaPMNEmpty (newVersionedAPI v) := by
  intro ao hao
  exact absurd hao (List.not_mem_nil ao)

/-- Looking up or creating a group preserves the invariant. -/
theorem gPMNEmpty_getD {gs : List Group} {gn : String} {gdef : Group}
    (hgs : ∀ g ∈ gs, gPMNEmpty g) (hdef : gPMNEmpty gdef) :
    gPMNEmpty ((findGroup gs gn).getD gdef) := by
  cases hf : findGroup gs gn with
  | none => exact hdef
  | some g =>
    simp only [Option.getD_some]
    exact hgs g (List.mem_of_find?_eq_some hf)

/-- Looking up or creating a versioned API preserves the invariant. -/
theorem vaPMNEmpty_getD {vas : List VersionedAPI} {v : String} {vdef : VersionedAPI}
    (hvas : ∀ va ∈ vas, vaPMNEmpty va) (hdef : vaPMNEmpty vdef) :
    vaPMNEmpty ((findVA vas v).getD vdef) := by
  cases hf : findVA vas v with
  | none => exact hdef
  | some va =>
    simp only [Option.getD_some]
    exact hvas va (List.mem_of_find?_eq_some hf)

/-- Appending a freshly created API object (no properties yet)
preserves the invariant. -/
theorem vaPMNEmpty_push {va : VersionedAPI} (path : DefName) (d : SchemaDefinition)
    (h : vaPMNEmpty va) :
    vaPMNEmpty { va with apiObjects := va.apiObjects ++ [newAPIObject path d] } := by
  intro ao hao
  rcases List.mem_append.mp hao with h1 | h1
  · exact h ao h1
  · rw [List.mem_singleton.mp h1]
    intro pm hpm
    exact absurd hpm (List.not_mem_nil pm)

/-- Re-inserting a versioned API that satisfies the invariant preserves
it for the whole group. -/
theorem gPMNEmpty_setVAs {g : Group} {va1 : VersionedAPI}
    (hg : gPMNEmpty g) (hva1 : vaPMNEmpty va1) :
    gPMNEmpty { g with versionedAPIs := setVA g.versionedAPIs va1 } := by
  intro va hva
  rcases mem_setVA hva with h1 | h1
  · exact hg va h1
  · rw [h1]
    exact hva1

/-- Re-inserting a group that satisfies the invariant preserves it for
the whole group set. -/
theorem setGroup_all {gs : List Group} {g1 : Group}
    (hgs : ∀ g ∈ gs, gPMNEmpty g) (hg1 : gPMNEmpty g1) :
    ∀ x ∈ setGroup gs g1, gPMNEmpty x := by
  intro x hx
  rcases mem_setGroup hx with h1 | h1
  · exact hgs x h1
  · rw [h1]
    exact hg1

/-- The group set produced by the successful branch of
`createAPIObject` keeps the invariant. -/
theorem createAPIObject_ok_pmn (gs : List Group) (gname qn v : String)
    (path : DefName) (d : SchemaDefinition)
    (hgs : ∀ g ∈ gs, gPMNEmpty g) :
    ∀ x ∈ setGroup gs
      { (findGroup gs gname).getD (newGroup gname qn) with
        versionedAPIs := setVA ((findGroup gs gname).getD (newGroup gname qn)).versionedAPIs
          { (findVA ((findGroup gs gname).getD (newGroup gname qn)).versionedAPIs v).getD
              (newVersionedAPI v) with
            apiObjects := ((findVA ((findGroup gs gname).getD
                (newGroup gname qn)).versionedAPIs v).getD
              (newVersionedAPI v)).apiObjects ++ [newAPIObject path d] } },
      gPMNEmpty x := by
  have hgroup : gPMNEmpty ((findGroup gs gname).getD (newGroup gname qn)) :=
    gPMNEmpty_getD hgs (gPMNEmpty_new _ _)
  exact setGroup_all hgs (gPMNEmpty_setVAs hgroup
    (vaPMNEmpty_push path d (vaPMNEmpty_getD hgroup (vaPMNEmpty_new v))))

/-- The `createAPIObject` preserves the empty-`parentMixinName` invariant
(the new object starts with no properties). -/
theorem createAPIObject_pmn {r : Root} {path : DefName} {d : SchemaDefinition}
    {r1 : Root} {loc : Loc}
    (hP : rootPMNEmpty r) (h : createAPIObject r path d = .ok (r1, loc)) :
    rootPMNEmpty r1 := by
  rw [createAPIObject] at h
  cases hv : path.version with
  | none => rw [hv] at h; exact Except.noConfusion h
  | some v =>
    rw [hv] at h
    dsimp only at h
    by_cases hvis : (!d.topLevelSpecs.isEmpty) = true
    · simp only [if_pos hvis] at h
      split at h
      · exact Except.noConfusion h
      · injection h with h'
        injection h' with hA hB
        subst hA
        exact ⟨createAPIObject_ok_pmn r.groups _ _ v path d hP.1, hP.2⟩
    · simp only [if_neg hvis] at h
      split at h
      · exact Except.noConfusion h
      · injection h with h'
        injection h' with hA hB
        subst hA
        exact ⟨hP.1, createAPIObject_ok_pmn r.hiddenGroups _ _ v path d hP.2⟩

/-- Updating one API object with a function that restores the invariant
preserves it across the group list. -/
theorem updateAOInGroups_pmn {gs : List Group} {gn v k : String} {f : APIObject → APIObject}
    (hgs : ∀ g ∈ gs, gPMNEmpty g) (hf : ∀ ao, aoPMNEmpty (f ao)) :
    ∀ x ∈ updateAOInGroups gs gn v k f, gPMNEmpty x := by
  intro x hx
  rw [updateAOInGroups] at hx
  rcases List.mem_map.mp hx with ⟨g, hg, hxg⟩
  by_cases hn : (g.name == gn) = true
  · rw [if_pos hn] at hxg
    subst hxg
    intro va hva
    rcases List.mem_map.mp hva with ⟨va0, hva0, hvv⟩
    by_cases hv0 : (va0.version == v) = true
    · rw [if_pos hv0] at hvv
      subst hvv
      intro ao hao
      rcases List.mem_map.mp hao with ⟨ao0, hao0, haa⟩
      by_cases hk0 : (ao0.name == k) = true
      · rw [if_pos hk0] at haa
        subst haa
        exact hf ao0
      · rw [if_neg hk0] at haa
        subst haa
        exact hgs g hg va0 hva0 ao0 hao0
    · rw [if_neg hv0] at hvv
      subst hvv
      exact hgs g hg va0 hva0
  · rw [if_neg hn] at hxg
    subst hxg
    exact hgs g hg

/-- The `updateAOAt` with an invariant-restoring update preserves the
root invariant. -/
theorem updateAOAt_pmn {r : Root} {loc : Loc} {f : APIObject → APIObject}
    (hP : rootPMNEmpty r) (hf : ∀ ao, aoPMNEmpty (f ao)) :
    rootPMNEmpty (updateAOAt r loc f) := by
  rw [updateAOAt]
  by_cases hv : loc.visible = true
  · rw [if_pos hv]
    exact ⟨updateAOInGroups_pmn hP.1 hf, hP.2⟩
  · rw [if_neg hv]
    exact ⟨hP.1, updateAOInGroups_pmn hP.2 hf⟩

/-- The `addDefinition` preserves the empty-`parentMixinName` invariant. -/
theorem addDefinition_pmn {r r1 : Root} {path : DefName} {d : SchemaDefinition}
    (hP : rootPMNEmpty r) (h : addDefinition r path d = .ok r1) : rootPMNEmpty r1 := by
  rw [addDefinition] at h
  by_cases hv : path.version.isNone = true
  · rw [if_pos hv] at h
    injection h with h'
    exact h' ▸ hP
  · rw [if_neg hv] at h
    cases hc : createAPIObject r path d with
    | error e => rw [hc] at h; exact Except.noConfusion h
    | ok x =>
      obtain ⟨r2, loc⟩ := x
      rw [hc] at h
      dsimp only at h
      cases hb : buildProps path [] d.properties with
      | error e => rw [hb] at h; exact Except.noConfusion h
      | ok props =>
        rw [hb] at h
        dsimp only at h
        injection h with h'
        subst h'
        have hprops := buildProps_pmn path d.properties [] props
          (by intro pm hpm; exact absurd hpm (List.not_mem_nil pm)) hb
        exact updateAOAt_pmn (createAPIObject_pmn hP hc)
          (fun ao => by intro pm hpm; exact hprops pm hpm)

/-- The definition loop preserves the empty-`parentMixinName`
invariant. -/
theorem addDefinitions_pmn :
    ∀ (l : List (DefName × SchemaDefinition)) (r r1 : Root),
      rootPMNEmpty r → addDefinitions r l = .ok r1 → rootPMNEmpty r1 := by
  intro l
  induction l with
  | nil =>
    intro r r1 hP h
    rw [addDefinitions] at h
    injection h with h'
    exact h' ▸ hP
  | cons x rest ih =>
    intro r r1 hP h
    obtain ⟨p, d⟩ := x
    rw [addDefinitions] at h
    cases ha : addDefinition r p d with
    | error e => rw [ha] at h; exact Except.noConfusion h
    | ok r2 =>
      rw [ha] at h
      dsimp only at h
      exact ih r2 r1 (addDefinition_pmn hP ha) h

/-- Every root built by `newRoot` satisfies the
empty-`parentMixinName` invariant. -/
theorem newRoot_pmn {ver : String} {ksha k8ssha : Option String}
    {defs : List (DefName × SchemaDefinition)} {r : Root}
    (h : newRoot ver ksha k8ssha defs = .ok r) : rootPMNEmpty r :=
  addDefinitions_pmn defs _ r
    ⟨fun g hg => absurd hg (List.not_mem_nil g), fun g hg => absurd hg (List.not_mem_nil g)⟩ h

/-- Writing the empty qualifier into a property that already carries
the empty qualifier changes nothing. -/
theorem setPMNProp_id {pm : Property} (n : String) (h : pm.parentMixinName = "") :
    setPMNProp n "" pm = pm := by
  rw [setPMNProp]
  by_cases hn : (pm.name == n) = true
  · rw [if_pos hn]
    rcases pm with ⟨k, rf, st, it, nm, pa, cm, pmn⟩
    dsimp only at h
    subst h
    rfl
  · rw [if_neg hn]

/-- Writing the empty qualifier into an object whose properties all
carry the empty qualifier changes nothing. -/
theorem setPMNAO_id {ao : APIObject} (n : String) (h : aoPMNEmpty ao) :
    setPMNAO n "" ao = ao := by
  rw [setPMNAO, listMapSelf _ _ (fun pm hpm => setPMNProp_id n (h pm hpm))]

/-- The `updateAOInGroups` with a pointwise-identity update is the
identity. -/
theorem updateAOInGroups_id {gs : List Group} {gn v k : String} {f : APIObject → APIObject}
    (hf : ∀ g ∈ gs, ∀ va ∈ g.versionedAPIs, ∀ ao ∈ va.apiObjects, f ao = ao) :
    updateAOInGroups gs gn v k f = gs := by
  rw [updateAOInGroups]
  apply listMapSelf
  intro g hg
  by_cases hn : (g.name == gn) = true
  · rw [if_pos hn]
    have hvas : g.versionedAPIs.map (fun va =>
        if va.version == v then
          { va with apiObjects := va.apiObjects.map (fun ao =>
              if ao.name == k then f ao else ao) }
        else va) = g.versionedAPIs := by
      apply listMapSelf
      intro va hva
      by_cases hv0 : (va.version == v) = true
      · rw [if_pos hv0]
        have haos : va.apiObjects.map (fun ao => if ao.name == k then f ao else ao) =
            va.apiObjects := by
          apply listMapSelf
          intro ao hao
          by_cases hk0 : (ao.name == k) = true
          · rw [if_pos hk0]
            exact hf g hg va hva ao hao
          · rw [if_neg hk0]
        rw [haos]
      · rw [if_neg hv0]
    rw [hvas]
  · rw [if_neg hn]

/-- Under the construction invariant, the qualifier write of the
visitor is a no-op on the whole tree: the value written is always the
zero value `""` that every property already carries. -/
theorem setPMN_id (r : Root) (loc : Loc) (n : String) (hP : rootPMNEmpty r) :
    setParentMixinNameAt r loc n "" = r := by
  rw [setParentMixinNameAt, updateAOAt]
  by_cases hv : loc.visible = true
  · rw [if_pos hv]
    rw [updateAOInGroups_id (fun g hg va hva ao hao =>
      setPMNAO_id n (fun pm hpm => hP.1 g hg va hva ao hao pm hpm))]
  · rw [if_neg hv]
    rw [updateAOInGroups_id (fun g hg va hva ao hao =>
      setPMNAO_id n (fun pm hpm => hP.2 g hg va hva ao hao pm hpm))]

/-- A state fold whose step preserves the state under an invariant
preserves the state. -/
theorem stateFold_frame {α : Type} (P : Root → Prop) (step : Root → α → Except String Root)
    (hstep : ∀ s x s', P s → step s x = .ok s' → s' = s) :
    ∀ (l : List α) (s s' : Root), P s → stateFold step s l = .ok s' → s' = s := by
  intro l
  induction l with
  | nil =>
    intro s s' _ h
    rw [stateFold] at h
    injection h with h'
    exact h'.symm
  | cons x rest ih =>
    intro s s' hP h
    rw [stateFold] at h
    cases hs : step s x with
    | error e => rw [hs] at h; exact Except.noConfusion h
    | ok s1 =>
      rw [hs] at h
      dsimp only at h
      have h1 := hstep s x s1 hP hs
      subst h1
      exact ih s1 s' hP h

/-- The `refMixinAPIObject.accept` with the empty qualifier leaves the tree
unchanged whenever it completes, provided the child visit does. -/
theorem rmaoAccept_frame (C : Ctx) (child : Root → Property → Except String Root)
    (hchild : ∀ s pm s', rootPMNEmpty s → child s pm = .ok s' → s' = s)
    (r : Root) (loc : Loc) (va : VersionedAPI) (ao : APIObject) (p : Property) (r' : Root)
    (hP : rootPMNEmpty r) (h : rmaoAccept C child r loc va ao p "" = .ok r') : r' = r := by
  rw [rmaoAccept] at h
  dsimp only at h
  cases hsf : stateFold (fun st pm => child (setParentMixinNameAt st loc pm.name "") pm) r
      ((sortAndFilterBlacklisted C r.specVersion ao.properties).filter
        (fun pm => ! C.special pm.name)) with
  | error e => rw [hsf] at h; exact Except.noConfusion h
  | ok r1 =>
    rw [hsf] at h
    dsimp only at h
    have hr1 : r1 = r := by
      refine stateFold_frame rootPMNEmpty _ ?_ _ r r1 hP hsf
      intro s pm s' hs hstep
      rw [setPMN_id s loc pm.name hs] at hstep
      exact hchild s pm s' hs hstep
    rw [hr1] at h
    by_cases hcol :
        (findAOIn va.apiObjects (C.rewriteAsIdentifier r.specVersion p.name)).isSome = true
    · rw [if_pos hcol] at h
      exact Except.noConfusion h
    · rw [if_neg hcol] at h
      injection h with h'
      exact h'.symm

/-- The `property.accept` leaves the tree unchanged whenever it completes,
for any tree satisfying the construction invariant. -/
theorem propertyAccept_frame (C : Ctx) :
    ∀ (fuel : Nat) (r : Root) (p : Property) (r' : Root),
      rootPMNEmpty r → propertyAccept C fuel r p = .ok r' → r' = r := by
  intro fuel
  induction fuel with
  | zero =>
    intro r p r' _ h
    exact Except.noConfusion h
  | succ fuel ih =>
    intro r p r' hP h
    rw [propertyAccept] at h
    by_cases hk : p.kind = PropertyKind.typeAlias
    · rw [if_pos hk] at h
      injection h with h'
      exact h'.symm
    · rw [if_neg hk] at h
      cases href : p.ref with
      | none =>
        rw [href] at h
        dsimp only at h
        cases hst : p.schemaType with
        | none => rw [hst] at h; exact Except.noConfusion h
        | some t =>
          rw [hst] at h
          dsimp only at h
          injection h with h'
          exact h'.symm
      | some orf =>
        rw [href] at h
        dsimp only at h
        by_cases hme : orf.mixinEligible = true
        · rw [if_pos hme] at h
          cases hloc : getAPIObjectLoc r orf.name with
          | error e => rw [hloc] at h; exact Except.noConfusion h
          | ok x =>
            obtain ⟨loc, va, ao⟩ := x
            rw [hloc] at h
            dsimp only at h
            exact rmaoAccept_frame C _ (fun s pm s' hs hstep => ih s pm s' hs hstep)
              r loc va ao p r' hP h
        · rw [if_neg hme] at h
          injection h with h'
          exact h'.symm

/-- The `apiObject.accept` leaves the tree unchanged whenever it
completes. -/
theorem apiObjectAccept_frame (C : Ctx) (fuel : Nat) (r : Root) (ao : APIObject) (r' : Root)
    (hP : rootPMNEmpty r) (h : apiObjectAccept C fuel r ao = .ok r') : r' = r :=
  stateFold_frame rootPMNEmpty _
    (fun s pm s' hs hstep => propertyAccept_frame C fuel s pm s' hs hstep) _ r r' hP h

/-- The `versionedAPI.accept` leaves the tree unchanged whenever it
completes. -/
theorem versionedAPIAccept_frame (C : Ctx) (fuel : Nat) (r : Root) (va : VersionedAPI)
    (r' : Root) (hP : rootPMNEmpty r) (h : versionedAPIAccept C fuel r va = .ok r') :
    r' = r :=
  stateFold_frame rootPMNEmpty _
    (fun s ao s' hs hstep => apiObjectAccept_frame C fuel s ao s' hs hstep) _ r r' hP h

/-- The `group.accept` leaves the tree unchanged whenever it completes. -/
theorem groupAccept_frame (C : Ctx) (fuel : Nat) (r : Root) (g : Group) (r' : Root)
    (hP : rootPMNEmpty r) (h : groupAccept C fuel r g = .ok r') : r' = r :=
  stateFold_frame rootPMNEmpty _
    (fun s va s' hs hstep => versionedAPIAccept_frame C fuel s va s' hs hstep) _ r r' hP h

/-- Claim C1: after the visitor traversal of any root built by
`newRoot` completes — including every recursive mixin expansion, with
the same referenced object reachable from any number of call sites —
every field of every `Property` and `APIObject` in the model tree is
unchanged: the accumulated parent mixin qualifier lives only in the
call context, never in the persisted tree. -/
theorem c1_mixin_qualifier_not_persisted (C : Ctx) (ver : String)
    (ksha k8ssha : Option String) (defs : List (DefName × SchemaDefinition))
    (fuel : Nat) (r r' : Root)
    (hbuild : newRoot ver ksha k8ssha defs = .ok r)
    (hacc : rootAccept C fuel r = .ok r') : r' = r := by
  have hP := newRoot_pmn hbuild
  rw [rootAccept] at hacc
  cases h1 : stateFold (fun st g => groupAccept C fuel st g) r (sortByKey Group.name r.groups) with
  | error e => rw [h1] at hacc; exact Except.noConfusion hacc
  | ok r1 =>
    rw [h1] at hacc
    dsimp only at hacc
    have hr1 : r1 = r := stateFold_frame rootPMNEmpty _
      (fun s g s' hs hstep => groupAccept_frame C fuel s g s' hs hstep) _ r r1 hP h1
    subst hr1
    exact stateFold_frame rootPMNEmpty _
      (fun s g s' hs hstep => groupAccept_frame C fuel s g s' hs hstep) _ r1 r' hP hacc

/-- The hidden PodSpec definition for the claim C1 witness. -/
def sdPodSpec : SchemaDefinition :=
  ⟨"", [("replicas", ⟨"", some "integer", none, none⟩)], []⟩

/-- The top-level Pod definition whose `spec` property is a
mixin-eligible reference to the hidden PodSpec, for the claim C1
witness. -/
def sdPod : SchemaDefinition :=
  ⟨"", [("spec", ⟨"", none, some ⟨dnHid, true⟩, none⟩)], ["core"]⟩

/-- The top-level Pod definition path, for the claim C1 witness. -/
def dnPod : DefName := ⟨"io.k8s.api.core.v1.Pod", some "core", some "v1", "Pod"⟩

/-- The two-definition schema of the claim C1 witness. -/
def c1Defs : List (DefName × SchemaDefinition) := [(dnPod, sdPod), (dnHid, sdPodSpec)]

/-- The root built from the claim C1 witness schema. -/
def c1Root : Root := (newRoot "1.7.0" none none c1Defs).toOption.getD default

/-- Witness for claim C1: the visitor traversal of a concrete schema
with a recursive mixin expansion completes and returns the tree
unchanged. -/
theorem c1_witness :
    newRoot "1.7.0" none none c1Defs = .ok c1Root ∧
    rootAccept C0 3 c1Root = .ok c1Root := by
  refine ⟨by decide, ?_⟩
  have hrun : rootAccept C0 3 c1Root =
      .ok ((rootAccept C0 3 c1Root).toOption.getD default) := by decide
  have heq := c1_mixin_qualifier_not_persisted C0 "1.7.0" none none c1Defs 3 c1Root
    ((rootAccept C0 3 c1Root).toOption.getD default) (by decide) hrun
  rw [heq] at hrun
  exact hrun

end Ksonnet
